import Mathlib

/-!
Verification of the matching and disambiguation engine of a small FAQ bot.

The Python source (`nlp_engine.py`, `bot_processor.py`, `bot.py`) is shallowly
embedded below: strings are `List Char`, Python floats are `ℚ`, raising code is
`Except`-valued, and per-user mutable session state is passed explicitly.
Definitions follow the source function by function; theorems settle the frozen
claims about the specification.
-/

set_option maxRecDepth 10000

/-- Strings of the embedded program are lists of characters. -/
abbrev Str := List Char

/-- Association lookup used by the character case maps. -/
def assocFind (ps : List (Char × Char)) (c : Char) : Option Char :=
  match ps with
  | [] => none
  | (k, v) :: rest => if k = c then some v else assocFind rest c

/-- Uppercase-to-lowercase pairs for ASCII and Cyrillic letters, the alphabets
`str.lower()` touches in this code base. -/
def lowerPairs : List (Char × Char) :=
  [('A', 'a'), ('B', 'b'), ('C', 'c'), ('D', 'd'), ('E', 'e'), ('F', 'f'),
   ('G', 'g'), ('H', 'h'), ('I', 'i'), ('J', 'j'), ('K', 'k'), ('L', 'l'),
   ('M', 'm'), ('N', 'n'), ('O', 'o'), ('P', 'p'), ('Q', 'q'), ('R', 'r'),
   ('S', 's'), ('T', 't'), ('U', 'u'), ('V', 'v'), ('W', 'w'), ('X', 'x'),
   ('Y', 'y'), ('Z', 'z'),
   ('А', 'а'), ('Б', 'б'), ('В', 'в'), ('Г', 'г'), ('Д', 'д'), ('Е', 'е'),
   ('Ж', 'ж'), ('З', 'з'), ('И', 'и'), ('Й', 'й'), ('К', 'к'), ('Л', 'л'),
   ('М', 'м'), ('Н', 'н'), ('О', 'о'), ('П', 'п'), ('Р', 'р'), ('С', 'с'),
   ('Т', 'т'), ('У', 'у'), ('Ф', 'ф'), ('Х', 'х'), ('Ц', 'ц'), ('Ч', 'ч'),
   ('Ш', 'ш'), ('Щ', 'щ'), ('Ъ', 'ъ'), ('Ы', 'ы'), ('Ь', 'ь'), ('Э', 'э'),
   ('Ю', 'ю'), ('Я', 'я'), ('Ё', 'ё')]

/-- Lowercasing of one character, as `str.lower()` acts on the alphabets used
by the program. -/
def pyLower (c : Char) : Char :=
  match assocFind lowerPairs c with
  | some l => l
  | none => c

/-- Uppercasing of one character (used by `soundex_rus` on the first letter). -/
def pyUpper (c : Char) : Char :=
  match assocFind (lowerPairs.map (fun p => (p.2, p.1))) c with
  | some u => u
  | none => c

/-- Whitespace characters, as recognised by `str.strip`, `str.split` and the
regex class `\s` on the texts this program handles. -/
def isPySpace (c : Char) : Bool :=
  c = ' ' || c = '\t' || c = '\n' || c = '\x0d' || c = '\x0b' || c = '\x0c'

/-- Word characters: the regex class `\w` (Unicode letters, digits and the
underscore) restricted to the ASCII and Cyrillic alphabets this program
handles. -/
def isWordChar (c : Char) : Bool :=
  ('a' ≤ c && c ≤ 'z') || ('A' ≤ c && c ≤ 'Z') || ('0' ≤ c && c ≤ '9') ||
  c = '_' || ('а' ≤ c && c ≤ 'я') || ('А' ≤ c && c ≤ 'Я') || c = 'ё' || c = 'Ё'

/-- One step of `re.sub(r'[^\w\s]', ' ', ·)`: a character that is neither a
word character nor whitespace becomes a space. -/
def npChar (c : Char) : Char :=
  if isWordChar c || isPySpace c then c else ' '

/-- The character-wise substitution `re.sub(r'[^\w\s]', ' ', text)`. -/
def subPunct (l : Str) : Str :=
  l.map npChar

/-- Worker for `re.sub(r'\s+', ' ', text)`: the flag records whether the
previous character already fell in a whitespace run. -/
def collapseAux (prev : Bool) : Str → Str
  | [] => []
  | c :: cs =>
    if isPySpace c then
      if prev then collapseAux true cs else ' ' :: collapseAux true cs
    else
      c :: collapseAux false cs

/-- The substitution `re.sub(r'\s+', ' ', text)`: every maximal whitespace run
becomes a single space. -/
def collapseWs (l : Str) : Str :=
  collapseAux false l

/-- Python `str.strip()`: drop whitespace from both ends. -/
def pyStrip (l : Str) : Str :=
  ((l.dropWhile isPySpace).reverse.dropWhile isPySpace).reverse

/-- `TextPreprocessor.normalize_text` (nlp_engine.py, lines 10-16):
lower-case, strip, replace punctuation by spaces, collapse whitespace runs. -/
def normalize_text (l : Str) : Str :=
  collapseWs (subPunct (pyStrip (l.map pyLower)))

/-- Worker for Python `str.split()`; `acc` is the current word, reversed. -/
def pySplitAux (acc : Str) : Str → List Str
  | [] => if acc.isEmpty then [] else [acc.reverse]
  | c :: cs =>
    if isPySpace c then
      if acc.isEmpty then pySplitAux [] cs else acc.reverse :: pySplitAux [] cs
    else
      pySplitAux (c :: acc) cs

/-- Python `str.split()` with no separator: split on whitespace runs, with no
empty words. -/
def pySplit (l : Str) : List Str :=
  pySplitAux [] l

/-- The stop-word set of `TextPreprocessor.extract_keywords`
(nlp_engine.py, lines 21-29). -/
def stop_words : List Str :=
  ["как".data, "где".data, "что".data, "кто".data, "когда".data, "почему".data,
   "зачем".data, "мне".data, "мной".data, "меня".data, "тебе".data,
   "тобой".data, "тебя".data, "свой".data, "своя".data, "своё".data,
   "свои".data, "это".data, "этот".data, "эта".data, "эти".data, "вот".data,
   "тут".data, "там".data, "здесь".data, "туда".data, "очень".data,
   "просто".data, "вообще".data, "совсем".data, "можно".data, "нужно".data,
   "надо".data, "хочу".data, "хотел".data]

/-- `TextPreprocessor.extract_keywords` (nlp_engine.py, lines 18-33): split on
whitespace and keep words longer than two characters that are not stop words. -/
def extract_keywords (l : Str) : List Str :=
  (pySplit l).filter (fun w => decide (w ∉ stop_words) && decide (2 < w.length))

example : normalize_text "  Как создать Накладную?  ".data
    = "как создать накладную ".data := by decide

example : extract_keywords (normalize_text "как создать накладную".data)
    = ["создать".data, "накладную".data] := by decide

example : normalize_text "a!".data = "a ".data := by decide

/-! ### Character-level facts about `normalize_text` -/

theorem assocFind_mem {ps : List (Char × Char)} {c v : Char}
    (h : assocFind ps c = some v) : (c, v) ∈ ps := by
  induction ps with
  | nil => simp [assocFind] at h
  | cons p rest ih =>
    obtain ⟨k, w⟩ := p
    by_cases hk : k = c
    · subst hk
      simp [assocFind] at h
      simp [h]
    · simp [assocFind, hk] at h
      exact List.mem_cons_of_mem _ (ih h)

theorem lowerPairs_value_not_key :
    ∀ p ∈ lowerPairs, assocFind lowerPairs p.2 = none := by decide

/-- Lowercasing is idempotent on every character. -/
theorem pyLower_idem (c : Char) : pyLower (pyLower c) = pyLower c := by
  unfold pyLower
  cases h : assocFind lowerPairs c with
  | none => simp [h]
  | some l =>
    have hm := assocFind_mem h
    have := lowerPairs_value_not_key (c, l) hm
    simp at this
    simp [this]

theorem pyLower_space : pyLower ' ' = ' ' := by decide

/-- The binary relation "not two whitespace characters in a row". -/
def notTwoSpaces (a b : Char) : Prop :=
  ¬(isPySpace a = true ∧ isPySpace b = true)

theorem collapseAux_mem {c : Char} {prev : Bool} {l : Str}
    (h : c ∈ collapseAux prev l) : c = ' ' ∨ (c ∈ l ∧ isPySpace c = false) := by
  induction l generalizing prev with
  | nil => simp [collapseAux] at h
  | cons d ds ih =>
    by_cases hs : isPySpace d
    · cases prev with
      | true =>
        simp [collapseAux, hs] at h
        rcases ih h with h' | ⟨hmem, hns⟩
        · exact Or.inl h'
        · exact Or.inr ⟨List.mem_cons_of_mem _ hmem, hns⟩
      | false =>
        simp [collapseAux, hs] at h
        rcases h with h' | h'
        · exact Or.inl h'
        · rcases ih h' with h'' | ⟨hmem, hns⟩
          · exact Or.inl h''
          · exact Or.inr ⟨List.mem_cons_of_mem _ hmem, hns⟩
    · simp [collapseAux, hs] at h
      rcases h with h' | h'
      · subst h'
        exact Or.inr ⟨List.mem_cons_self _ _, by simpa using hs⟩
      · rcases ih h' with h'' | ⟨hmem, hns⟩
        · exact Or.inl h''
        · exact Or.inr ⟨List.mem_cons_of_mem _ hmem, hns⟩

theorem collapseAux_head_true {l : Str} {c : Char}
    (h : (collapseAux true l).head? = some c) : isPySpace c = false := by
  induction l with
  | nil => simp [collapseAux] at h
  | cons d ds ih =>
    by_cases hs : isPySpace d
    · simp [collapseAux, hs] at h
      exact ih h
    · simp [collapseAux, hs] at h
      subst h
      simpa using hs

theorem collapseAux_chain (l : Str) (prev : Bool) :
    List.Chain' notTwoSpaces (collapseAux prev l) := by
  induction l generalizing prev with
  | nil => simp [collapseAux]
  | cons d ds ih =>
    by_cases hs : isPySpace d
    · cases prev with
      | true => simpa [collapseAux, hs] using ih true
      | false =>
        simp only [collapseAux, hs, if_true, if_false, Bool.false_eq_true]
        rw [List.chain'_cons']
        refine ⟨?_, ih true⟩
        intro b hb
        intro hcon
        exact absurd (collapseAux_head_true hb) (by simp [hcon.2])
    · simp only [collapseAux, hs, if_false, Bool.false_eq_true]
      rw [List.chain'_cons']
      refine ⟨?_, ih false⟩
      intro b _
      intro hcon
      exact absurd hcon.1 (by simpa using hs)

theorem collapseAux_eq_self {l : Str}
    (hsp : ∀ c ∈ l, isPySpace c = true → c = ' ')
    (hch : List.Chain' notTwoSpaces l) :
    ∀ prev, (prev = true → ∀ c, l.head? = some c → isPySpace c = false) →
      collapseAux prev l = l := by
  induction l with
  | nil => intro prev _; simp [collapseAux]
  | cons d ds ih =>
    intro prev hprev
    by_cases hs : isPySpace d
    · have hd : d = ' ' := hsp d (List.mem_cons_self _ _) (by simpa using hs)
      cases prev with
      | true =>
        exact absurd (hprev rfl d rfl) (by simp [hs])
      | false =>
        have htail : collapseAux true ds = ds := by
          refine ih (fun c hc h => hsp c (List.mem_cons_of_mem _ hc) h) hch.tail true ?_
          intro _ c hc
          rcases ds with _ | ⟨e, es⟩
          · simp at hc
          · simp at hc
            subst hc
            rw [List.chain'_cons] at hch
            by_contra hcon
            exact hch.1 ⟨hs, by simpa using hcon⟩
        subst hd
        simp [collapseAux, hs, htail]
    · have htail : collapseAux false ds = ds :=
        ih (fun c hc h => hsp c (List.mem_cons_of_mem _ hc) h) hch.tail false (by simp)
      simp [collapseAux, hs, htail]

theorem subPunct_eq_self {l : Str}
    (h : ∀ c ∈ l, (isWordChar c || isPySpace c) = true) : subPunct l = l := by
  induction l with
  | nil => rfl
  | cons d ds ih =>
    have hd := h d (List.mem_cons_self _ _)
    simp only [subPunct, List.map_cons, npChar, hd, if_true]
    have := ih (fun c hc => h c (List.mem_cons_of_mem _ hc))
    simpa [subPunct] using this

theorem map_pyLower_eq_self {l : Str} (h : ∀ c ∈ l, pyLower c = c) :
    l.map pyLower = l := by
  induction l with
  | nil => rfl
  | cons d ds ih =>
    simp only [List.map_cons, h d (List.mem_cons_self _ _)]
    congr 1
    exact ih (fun c hc => h c (List.mem_cons_of_mem _ hc))

theorem dropWhile_mem {p : Char → Bool} {l : Str} {c : Char}
    (h : c ∈ l.dropWhile p) : c ∈ l := by
  induction l with
  | nil => simpa [List.dropWhile] using h
  | cons d ds ih =>
    by_cases hp : p d
    · simp only [List.dropWhile, hp] at h
      exact List.mem_cons_of_mem _ (ih h)
    · simpa only [List.dropWhile, hp] using h

theorem pyStrip_mem {l : Str} {c : Char} (h : c ∈ pyStrip l) : c ∈ l := by
  unfold pyStrip at h
  rw [List.mem_reverse] at h
  have h1 := dropWhile_mem h
  rw [List.mem_reverse] at h1
  exact dropWhile_mem h1

theorem chain'_dropWhile {R : Char → Char → Prop} {p : Char → Bool} {l : Str}
    (h : List.Chain' R l) : List.Chain' R (l.dropWhile p) := by
  induction l with
  | nil => simpa [List.dropWhile] using h
  | cons d ds ih =>
    by_cases hp : p d
    · simp only [List.dropWhile, hp]
      exact ih h.tail
    · simpa only [List.dropWhile, hp] using h

theorem chain'_reverse_notTwoSpaces {l : Str}
    (h : List.Chain' notTwoSpaces l) : List.Chain' notTwoSpaces l.reverse := by
  rw [List.chain'_reverse]
  exact h.imp (fun a b hab => by
    intro hcon
    exact hab ⟨hcon.2, hcon.1⟩)

theorem pyStrip_chain {l : Str} (h : List.Chain' notTwoSpaces l) :
    List.Chain' notTwoSpaces (pyStrip l) := by
  unfold pyStrip
  exact chain'_reverse_notTwoSpaces (chain'_dropWhile
    (chain'_reverse_notTwoSpaces (chain'_dropWhile h)))

/-- Every character of a normalised string is a space, or a lowercase-fixed
word character. -/
theorem normalize_text_chars {l : Str} {c : Char} (h : c ∈ normalize_text l) :
    (c = ' ' ∨ (isWordChar c = true ∧ isPySpace c = false)) ∧ pyLower c = c := by
  unfold normalize_text collapseWs at h
  rcases collapseAux_mem h with h' | ⟨hmem, hns⟩
  · subst h'
    exact ⟨Or.inl rfl, pyLower_space⟩
  · unfold subPunct at hmem
    rw [List.mem_map] at hmem
    obtain ⟨d, hd, hdc⟩ := hmem
    have hdl : pyLower d = d := by
      have hd2 := pyStrip_mem hd
      rw [List.mem_map] at hd2
      obtain ⟨e, _, he⟩ := hd2
      rw [← he]
      exact pyLower_idem e
    by_cases hw : (isWordChar d || isPySpace d) = true
    · have hcd : c = d := by rw [← hdc]; simp [npChar, hw]
      subst hcd
      rcases Bool.or_eq_true_iff.mp hw with hw' | hw'
      · exact ⟨Or.inr ⟨hw', hns⟩, hdl⟩
      · exact absurd hw' (by simp [hns])
    · have hcd : c = ' ' := by
        rw [← hdc]
        simp only [npChar]
        rw [if_neg (by simpa using hw)]
      exact ⟨Or.inl hcd, by rw [hcd]; exact pyLower_space⟩

/-- A normalised string never carries two adjacent whitespace characters. -/
theorem normalize_text_chain (l : Str) :
    List.Chain' notTwoSpaces (normalize_text l) :=
  collapseAux_chain _ _

/-- A second normalisation pass only strips the edge whitespace left behind
when edge punctuation was replaced by spaces. -/
theorem normalize_text_second_pass (l : Str) :
    normalize_text (normalize_text l) = pyStrip (normalize_text l) := by
  have h1 : (normalize_text l).map pyLower = normalize_text l :=
    map_pyLower_eq_self (fun c hc => (normalize_text_chars hc).2)
  have h2 : subPunct (pyStrip (normalize_text l)) = pyStrip (normalize_text l) := by
    apply subPunct_eq_self
    intro c hc
    rcases (normalize_text_chars (pyStrip_mem hc)).1 with h | ⟨hw, _⟩
    · subst h; decide
    · simp [hw]
  have h3 : collapseWs (pyStrip (normalize_text l)) = pyStrip (normalize_text l) := by
    apply collapseAux_eq_self ?_ (pyStrip_chain (normalize_text_chain l)) false (by simp)
    intro c hc hsp
    rcases (normalize_text_chars (pyStrip_mem hc)).1 with h | ⟨_, hns⟩
    · exact h
    · exact absurd hsp (by simp [hns])
  show collapseWs (subPunct (pyStrip ((normalize_text l).map pyLower)))
      = pyStrip (normalize_text l)
  rw [h1, h2, h3]

/-- C6, counterexample: `normalize_text` is not idempotent.  On input `"a!"`
the first pass yields `"a "` (the `!` became a space after stripping already
happened), and the second pass strips that trailing space. -/
theorem normalize_text_idempotent_cex :
    ¬(normalize_text (normalize_text "a!".data) = normalize_text "a!".data) := by
  decide

/-- C6 (amended): `normalize_text` is a total deterministic function mapping
the empty string to the empty string, but it is idempotent only up to edge
whitespace: a second application equals stripping the first result, so
idempotence holds exactly when the normalised string has no leading or
trailing whitespace (it fails e.g. on `"a!"`). -/
theorem normalize_text_total_second_pass :
    (∀ x : Str, normalize_text (normalize_text x) = pyStrip (normalize_text x)) ∧
    normalize_text "".data = "".data :=
  ⟨normalize_text_second_pass, by decide⟩

/-! ### `difflib.SequenceMatcher.ratio`, Ratcliff-Obershelp matching -/

/-- Length of the common prefix of two strings. -/
def commonPrefixLen : Str → Str → ℕ
  | c :: cs, d :: ds => if c = d then commonPrefixLen cs ds + 1 else 0
  | _, _ => 0

theorem commonPrefixLen_le_left : ∀ a b : Str, commonPrefixLen a b ≤ a.length := by
  intro a
  induction a with
  | nil => intro b; cases b <;> simp [commonPrefixLen]
  | cons c cs ih =>
    intro b
    cases b with
    | nil => simp [commonPrefixLen]
    | cons d ds =>
      by_cases h : c = d <;> simp [commonPrefixLen, h]
      exact ih ds

theorem commonPrefixLen_le_right : ∀ a b : Str, commonPrefixLen a b ≤ b.length := by
  intro a
  induction a with
  | nil => intro b; cases b <;> simp [commonPrefixLen]
  | cons c cs ih =>
    intro b
    cases b with
    | nil => simp [commonPrefixLen]
    | cons d ds =>
      by_cases h : c = d <;> simp [commonPrefixLen, h]
      exact ih ds

theorem commonPrefixLen_self : ∀ s : Str, commonPrefixLen s s = s.length := by
  intro s
  induction s with
  | nil => simp [commonPrefixLen]
  | cons c cs ih => simp [commonPrefixLen, ih]

/-- Length of the matching block of `a` at offset `i` against `b` at offset
`j`. -/
def candK (a b : Str) (i j : ℕ) : ℕ :=
  commonPrefixLen (a.drop i) (b.drop j)

/-- Inner loop of `find_longest_match`: scan all start offsets `j` in `b` for
a fixed offset `i` in `a`, keeping the first block of maximal length. -/
def bestInner (a b : Str) (i : ℕ) : ℕ × ℕ × ℕ → List ℕ → ℕ × ℕ × ℕ
  | best, [] => best
  | best, j :: js =>
    bestInner a b i
      (if best.2.2 < candK a b i j then (i, j, candK a b i j) else best) js

/-- Outer loop of `find_longest_match`: scan all start offsets `i` in `a`. -/
def bestOuter (a b : Str) : ℕ × ℕ × ℕ → List ℕ → ℕ × ℕ × ℕ
  | best, [] => best
  | best, i :: is => bestOuter a b (bestInner a b i best (List.range b.length)) is

/-- `difflib.SequenceMatcher.find_longest_match` (no junk): of all maximal
matching blocks, the one starting earliest in `a`, then earliest in `b`. -/
def findLongestMatch (a b : Str) : ℕ × ℕ × ℕ :=
  bestOuter a b (0, 0, 0) (List.range a.length)

/-- A triple `(i, j, k)` whose block length fits inside both suffixes. -/
def goodTriple (a b : Str) (t : ℕ × ℕ × ℕ) : Prop :=
  t.2.2 ≤ a.length - t.1 ∧ t.2.2 ≤ b.length - t.2.1

theorem candK_good (a b : Str) (i j : ℕ) : goodTriple a b (i, j, candK a b i j) := by
  constructor
  · simpa using (commonPrefixLen_le_left (a.drop i) (b.drop j))
  · simpa using (commonPrefixLen_le_right (a.drop i) (b.drop j))

theorem bestInner_good {a b : Str} {i : ℕ} {best : ℕ × ℕ × ℕ} {js : List ℕ}
    (h : goodTriple a b best) : goodTriple a b (bestInner a b i best js) := by
  induction js generalizing best with
  | nil => simpa [bestInner] using h
  | cons j js ih =>
    simp only [bestInner]
    by_cases hlt : best.2.2 < candK a b i j
    · simp only [hlt, if_true]
      exact ih (candK_good a b i j)
    · simp only [hlt, if_false]
      exact ih h

theorem bestOuter_good {a b : Str} {best : ℕ × ℕ × ℕ} {is : List ℕ}
    (h : goodTriple a b best) : goodTriple a b (bestOuter a b best is) := by
  induction is generalizing best with
  | nil => simpa [bestOuter] using h
  | cons i is ih =>
    simp only [bestOuter]
    exact ih (bestInner_good h)

theorem findLongestMatch_good (a b : Str) : goodTriple a b (findLongestMatch a b) :=
  bestOuter_good (by constructor <;> simp)

theorem bestInner_no_improve {a b : Str} {i : ℕ} {best : ℕ × ℕ × ℕ} {js : List ℕ}
    (h : ∀ j ∈ js, candK a b i j ≤ best.2.2) : bestInner a b i best js = best := by
  induction js with
  | nil => simp [bestInner]
  | cons j js ih =>
    have hj := h j (List.mem_cons_self _ _)
    simp only [bestInner, Nat.not_lt.mpr hj, if_false]
    exact ih (fun j' hj' => h j' (List.mem_cons_of_mem _ hj'))

theorem bestOuter_no_improve {a b : Str} {best : ℕ × ℕ × ℕ} {is : List ℕ}
    (h : ∀ i ∈ is, ∀ j ∈ List.range b.length, candK a b i j ≤ best.2.2) :
    bestOuter a b best is = best := by
  induction is with
  | nil => simp [bestOuter]
  | cons i is ih =>
    simp only [bestOuter]
    rw [bestInner_no_improve (h i (List.mem_cons_self _ _))]
    exact ih (fun i' hi' => h i' (List.mem_cons_of_mem _ hi'))

/-- On a pair of equal non-empty strings the longest match is the whole
string. -/
theorem findLongestMatch_self {s : Str} (h : s ≠ []) :
    findLongestMatch s s = (0, 0, s.length) := by
  obtain ⟨n, hn⟩ : ∃ n, s.length = n + 1 := by
    cases s with
    | nil => exact absurd rfl h
    | cons c cs => exact ⟨cs.length, rfl⟩
  have hcand0 : candK s s 0 0 = s.length := by
    simp [candK, commonPrefixLen_self]
  have hpos : (0 : ℕ) < s.length := by omega
  have hle : ∀ i j : ℕ, candK s s i j ≤ s.length := by
    intro i j
    calc candK s s i j ≤ (s.drop j).length := commonPrefixLen_le_right _ _
    _ ≤ s.length := by simp
  have houter0 : List.range s.length = 0 :: List.map Nat.succ (List.range n) := by
    rw [hn, List.range_succ_eq_map]
  have hinner : bestInner s s 0 (0, 0, 0) (List.range s.length) = (0, 0, s.length) := by
    rw [houter0]
    simp only [bestInner]
    rw [hcand0]
    simp only [hpos, if_true]
    exact bestInner_no_improve (fun j _ => hle 0 j)
  unfold findLongestMatch
  rw [houter0]
  simp only [bestOuter]
  rw [hinner]
  exact bestOuter_no_improve (fun i _ j _ => hle i j)

/-- Total number of matched characters of the Ratcliff-Obershelp recursion:
take the longest matching block and recurse left and right of it.  The fuel
argument only bounds the recursion depth; every call strictly shortens the
first string, so `a.length + 1` fuel (as supplied by `matchesTotal`) is never
exhausted. -/
def matchesTotalF : ℕ → Str → Str → ℕ
  | 0, _, _ => 0
  | fuel + 1, a, b =>
    if (findLongestMatch a b).2.2 = 0 then 0
    else
      (findLongestMatch a b).2.2
        + matchesTotalF fuel (a.take (findLongestMatch a b).1)
            (b.take (findLongestMatch a b).2.1)
        + matchesTotalF fuel
            (a.drop ((findLongestMatch a b).1 + (findLongestMatch a b).2.2))
            (b.drop ((findLongestMatch a b).2.1 + (findLongestMatch a b).2.2))

/-- Number of matching characters reported by `difflib.SequenceMatcher`. -/
def matchesTotal (a b : Str) : ℕ :=
  matchesTotalF (a.length + 1) a b

theorem matchesTotalF_nil (fuel : ℕ) (b : Str) : matchesTotalF fuel [] b = 0 := by
  cases fuel with
  | zero => rfl
  | succ f =>
    have h : findLongestMatch [] b = (0, 0, 0) := by
      unfold findLongestMatch
      simp [bestOuter]
    simp [matchesTotalF, h]

theorem matchesTotalF_self (fuel : ℕ) (s : Str) :
    matchesTotalF (fuel + 1) s s = s.length := by
  by_cases h : s = []
  · subst h
    simp [matchesTotalF_nil]
  · have hfl := findLongestMatch_self h
    have hlen : s.length ≠ 0 := by
      cases s with
      | nil => exact absurd rfl h
      | cons c cs => simp
    simp only [matchesTotalF, hfl]
    simp [hlen, matchesTotalF_nil, List.drop_length]

theorem matchesTotal_self (s : Str) : matchesTotal s s = s.length :=
  matchesTotalF_self s.length s

theorem matchesTotalF_le (fuel : ℕ) :
    ∀ a b : Str, matchesTotalF fuel a b ≤ a.length ∧ matchesTotalF fuel a b ≤ b.length := by
  induction fuel with
  | zero => intro a b; simp [matchesTotalF]
  | succ f ih =>
    intro a b
    by_cases ht : (findLongestMatch a b).2.2 = 0
    · simp [matchesTotalF, ht]
    · obtain ⟨h1, h2⟩ := findLongestMatch_good a b
      obtain ⟨t1l, t1r⟩ := ih (a.take (findLongestMatch a b).1)
        (b.take (findLongestMatch a b).2.1)
      obtain ⟨t2l, t2r⟩ := ih
        (a.drop ((findLongestMatch a b).1 + (findLongestMatch a b).2.2))
        (b.drop ((findLongestMatch a b).2.1 + (findLongestMatch a b).2.2))
      simp only [matchesTotalF, ht, if_false]
      simp only [List.length_take, List.length_drop] at t1l t1r t2l t2r
      constructor <;> omega

theorem matchesTotal_le (a b : Str) :
    matchesTotal a b ≤ a.length ∧ matchesTotal a b ≤ b.length :=
  matchesTotalF_le (a.length + 1) a b

/-- `difflib.SequenceMatcher(None, a, b).ratio()`: twice the number of matched
characters over the total length, and `1.0` for two empty strings. -/
def ratio_SM (a b : Str) : ℚ :=
  if a.length + b.length = 0 then 1
  else 2 * (matchesTotal a b : ℚ) / ((a.length : ℚ) + (b.length : ℚ))

theorem ratio_SM_self (s : Str) : ratio_SM s s = 1 := by
  unfold ratio_SM
  by_cases h : s.length + s.length = 0
  · simp [h]
  · have hlen : (0 : ℚ) < (s.length : ℚ) := by
      have : 0 < s.length := by omega
      exact_mod_cast this
    rw [if_neg h, matchesTotal_self]
    field_simp
    ring

theorem ratio_SM_nonneg (a b : Str) : 0 ≤ ratio_SM a b := by
  unfold ratio_SM
  by_cases h : a.length + b.length = 0
  · simp [h]
  · rw [if_neg h]
    apply div_nonneg
    · positivity
    · positivity

theorem ratio_SM_le_one (a b : Str) : ratio_SM a b ≤ 1 := by
  unfold ratio_SM
  by_cases h : a.length + b.length = 0
  · simp [h]
  · rw [if_neg h]
    have hpos : (0 : ℚ) < (a.length : ℚ) + (b.length : ℚ) := by
      have : 0 < a.length + b.length := Nat.pos_of_ne_zero h
      exact_mod_cast this
    rw [div_le_one hpos]
    obtain ⟨hl, hr⟩ := matchesTotal_le a b
    have hl' : (matchesTotal a b : ℚ) ≤ (a.length : ℚ) := by exact_mod_cast hl
    have hr' : (matchesTotal a b : ℚ) ≤ (b.length : ℚ) := by exact_mod_cast hr
    linarith

/-! ### `FuzzySearcher.fuzzy_ratio` -/

theorem pySplitAux_ne_nil :
    ∀ (l acc : Str), ∀ w ∈ pySplitAux acc l, w ≠ [] := by
  intro l
  induction l with
  | nil =>
    intro acc w hw
    by_cases ha : acc.isEmpty
    · simp [pySplitAux, ha] at hw
    · simp only [pySplitAux, ha, if_false, Bool.false_eq_true] at hw
      simp at hw
      subst hw
      simpa using (by simpa [List.isEmpty_iff] using ha : acc ≠ [])
  | cons c cs ih =>
    intro acc w hw
    by_cases hs : isPySpace c
    · by_cases ha : acc.isEmpty
      · simp only [pySplitAux, hs, ha, if_true] at hw
        exact ih [] w hw
      · simp only [pySplitAux, hs, ha, if_true, if_false, Bool.false_eq_true] at hw
        rcases List.mem_cons.mp hw with h' | h'
        · subst h'
          simpa using (by simpa [List.isEmpty_iff] using ha : acc ≠ [])
        · exact ih [] w h'
    · simp only [pySplitAux, hs, if_false, Bool.false_eq_true] at hw
      exact ih (c :: acc) w hw

theorem pySplit_ne_nil {l : Str} {w : Str} (h : w ∈ pySplit l) : w ≠ [] :=
  pySplitAux_ne_nil l [] w h

/-- Cardinality of Python `set(words)`. -/
def setCount (ws : List Str) : ℕ :=
  ws.dedup.length

/-- Cardinality of Python `set(words1) & set(words2)`. -/
def setInterCount (w1 w2 : List Str) : ℕ :=
  (w1.dedup.filter (fun w => decide (w ∈ w2))).length

/-- First-letter bonus of `fuzzy_ratio`: `0.2` when both token lists are
non-empty and their first tokens open with the same character.  (Tokens coming
out of `str.split()` are never empty, so the empty-token fallthrough is
unreachable.) -/
def firstLetterScore (words1 words2 : List Str) : ℚ :=
  match words1, words2 with
  | (c1 :: _) :: _, (c2 :: _) :: _ => if c1 = c2 then 0.2 else 0
  | _, _ => 0

/-- `FuzzySearcher.fuzzy_ratio` (nlp_engine.py, lines 70-92): a 60/30/10 blend
of the sequence-alignment ratio, the token-overlap ratio normalised by the
first argument's token-set size, and the first-letter bonus. -/
def fuzzy_ratio (text1 text2 : Str) : ℚ :=
  let base_ratio := ratio_SM text1 text2
  let words1 := pySplit text1
  let words2 := pySplit text2
  let word_overlap : ℚ :=
    (setInterCount words1 words2 : ℚ) / ((max (setCount words1) 1 : ℕ) : ℚ)
  base_ratio * 0.6 + word_overlap * 0.3 + firstLetterScore words1 words2 * 0.1

example : fuzzy_ratio "abc def".data "abcxyz defuvw".data = 11/25 := by
  have hm : matchesTotal "abc def".data "abcxyz defuvw".data = 7 := by decide
  have hs1 : pySplit "abc def".data = ["abc".data, "def".data] := by decide
  have hs2 : pySplit "abcxyz defuvw".data = ["abcxyz".data, "defuvw".data] := by
    decide
  have hi : setInterCount ["abc".data, "def".data]
      ["abcxyz".data, "defuvw".data] = 0 := by decide
  have hc : setCount ["abc".data, "def".data] = 2 := by decide
  simp only [fuzzy_ratio, ratio_SM, hm, hs1, hs2, hi, hc, firstLetterScore]
  norm_num

theorem dedup_filter_mem_self (l : List Str) :
    l.dedup.filter (fun w => decide (w ∈ l)) = l.dedup := by
  apply List.filter_eq_self.mpr
  intro w hw
  exact decide_eq_true (List.mem_dedup.mp hw)

theorem setCount_pos {w : Str} {ws : List Str} : 1 ≤ setCount (w :: ws) := by
  unfold setCount
  have hmem : w ∈ (w :: ws).dedup := List.mem_dedup.mpr (List.mem_cons_self _ _)
  exact List.length_pos.mpr (List.ne_nil_of_mem hmem)

/-- C4, counterexample: the self-similarity of a plain non-empty normalised
string is not `1.0`; `fuzzy_ratio "abc" "abc"` evaluates to `0.92`. -/
theorem fuzzy_ratio_reflexive_cex :
    ¬(fuzzy_ratio "abc".data "abc".data = 1) := by
  have hm : matchesTotal "abc".data "abc".data = 3 := by decide
  have hs : pySplit "abc".data = ["abc".data] := by decide
  have hi : setInterCount ["abc".data] ["abc".data] = 1 := by decide
  have hc : setCount ["abc".data] = 1 := by decide
  simp only [fuzzy_ratio, ratio_SM, hm, hs, hi, hc, firstLetterScore]
  norm_num

/-- C4 (amended): the self-similarity `fuzzy_ratio a a` is a constant strictly
below `1.0`: it is `0.92` whenever `a` has at least one whitespace-separated
token (in particular for every non-empty normalised string with a word), and
`0.6` for token-free strings; the maximum of the 60/30/10 blend is `0.92`,
never `1.0`. -/
theorem fuzzy_ratio_self_value (a : Str) :
    fuzzy_ratio a a = if pySplit a = [] then (0.6 : ℚ) else 0.92 := by
  cases hsp : pySplit a with
  | nil =>
    simp only [fuzzy_ratio, ratio_SM_self, hsp, setInterCount, setCount,
      firstLetterScore, List.dedup_nil, List.filter_nil, List.length_nil,
      if_true]
    norm_num
  | cons w ws =>
    have hw : w ≠ [] := pySplit_ne_nil (hsp ▸ List.mem_cons_self w ws)
    obtain ⟨c, cr, rfl⟩ : ∃ c cr, w = c :: cr := by
      cases w with
      | nil => exact absurd rfl hw
      | cons c cr => exact ⟨c, cr, rfl⟩
    have hinter : setInterCount ((c :: cr) :: ws) ((c :: cr) :: ws)
        = setCount ((c :: cr) :: ws) := by
      unfold setInterCount setCount
      rw [dedup_filter_mem_self]
    have hn : 1 ≤ setCount ((c :: cr) :: ws) := setCount_pos
    have hmax : max (setCount ((c :: cr) :: ws)) 1 = setCount ((c :: cr) :: ws) :=
      Nat.max_eq_left hn
    have hne : ((setCount ((c :: cr) :: ws) : ℕ) : ℚ) ≠ 0 := by
      have : (0 : ℚ) < ((setCount ((c :: cr) :: ws) : ℕ) : ℚ) := by
        exact_mod_cast Nat.lt_of_lt_of_le Nat.zero_lt_one hn
      exact ne_of_gt this
    simp only [fuzzy_ratio, ratio_SM_self, hsp]
    rw [hinter, hmax, div_self hne, if_neg (by simp)]
    simp only [firstLetterScore, if_pos rfl]
    norm_num

theorem firstLetterScore_cases (w1 w2 : List Str) :
    firstLetterScore w1 w2 = 0 ∨ firstLetterScore w1 w2 = 0.2 := by
  unfold firstLetterScore
  split
  · split
    · exact Or.inr rfl
    · exact Or.inl rfl
  · exact Or.inl rfl

/-- C5 (confirmed): `fuzzy_ratio` is bounded, `0 ≤ fuzzy_ratio a b ≤ 1` for
all strings `a` and `b`. -/
theorem fuzzy_ratio_bounded (a b : Str) :
    0 ≤ fuzzy_ratio a b ∧ fuzzy_ratio a b ≤ 1 := by
  simp only [fuzzy_ratio]
  have hb0 := ratio_SM_nonneg a b
  have hb1 := ratio_SM_le_one a b
  have hden : (1 : ℚ) ≤ ((max (setCount (pySplit a)) 1 : ℕ) : ℚ) := by
    exact_mod_cast Nat.le_max_right (setCount (pySplit a)) 1
  have hdenpos : (0 : ℚ) < ((max (setCount (pySplit a)) 1 : ℕ) : ℚ) :=
    lt_of_lt_of_le zero_lt_one hden
  have hio : (setInterCount (pySplit a) (pySplit b) : ℚ)
      ≤ ((max (setCount (pySplit a)) 1 : ℕ) : ℚ) := by
    have h1 : setInterCount (pySplit a) (pySplit b) ≤ setCount (pySplit a) :=
      List.length_filter_le _ _
    have h2 : setCount (pySplit a) ≤ max (setCount (pySplit a)) 1 :=
      Nat.le_max_left _ _
    exact_mod_cast le_trans h1 h2
  have hov0 : (0 : ℚ)
      ≤ (setInterCount (pySplit a) (pySplit b) : ℚ)
        / ((max (setCount (pySplit a)) 1 : ℕ) : ℚ) :=
    div_nonneg (by positivity) (le_of_lt hdenpos)
  have hov1 : (setInterCount (pySplit a) (pySplit b) : ℚ)
        / ((max (setCount (pySplit a)) 1 : ℕ) : ℚ) ≤ 1 :=
    (div_le_one hdenpos).mpr hio
  rcases firstLetterScore_cases (pySplit a) (pySplit b) with hf | hf <;>
    rw [hf] <;> constructor <;> nlinarith

/-- C10 (confirmed): `fuzzy_ratio` is not symmetric, because the token-overlap
component divides by the first argument's token-set size only: on `"ab"`
versus `"ab cd"` the two orders give `0.6714...` and `0.5214...`. -/
theorem fuzzy_ratio_asymmetric :
    fuzzy_ratio "ab".data "ab cd".data ≠ fuzzy_ratio "ab cd".data "ab".data := by
  have hm1 : matchesTotal "ab".data "ab cd".data = 2 := by decide
  have hm2 : matchesTotal "ab cd".data "ab".data = 2 := by decide
  have hs1 : pySplit "ab".data = ["ab".data] := by decide
  have hs2 : pySplit "ab cd".data = ["ab".data, "cd".data] := by decide
  have hi1 : setInterCount ["ab".data] ["ab".data, "cd".data] = 1 := by decide
  have hi2 : setInterCount ["ab".data, "cd".data] ["ab".data] = 1 := by decide
  have hc1 : setCount ["ab".data] = 1 := by decide
  have hc2 : setCount ["ab".data, "cd".data] = 2 := by decide
  simp only [fuzzy_ratio, ratio_SM, hm1, hm2, hs1, hs2, hi1, hi2, hc1, hc2,
    firstLetterScore]
  norm_num

/-! ### Soundex, word variations and the knowledge base -/

/-- Generic association-list lookup (Python dict access by key). -/
def pyLookup {β : Type} (ps : List (Char × β)) (c : Char) : Option β :=
  match ps with
  | [] => none
  | (k, v) :: rest => if k = c then some v else pyLookup rest c

/-- Letter-class codes of `FuzzySearcher.soundex_rus`
(nlp_engine.py, lines 124-130). -/
def soundexCodes : List (Char × Char) :=
  [('а', '0'), ('б', '1'), ('в', '2'), ('г', '3'), ('д', '4'), ('е', '0'),
   ('ё', '0'), ('ж', '1'), ('з', '2'), ('и', '0'), ('й', '0'), ('к', '3'),
   ('л', '4'), ('м', '5'), ('н', '6'), ('о', '0'), ('п', '1'), ('р', '2'),
   ('с', '3'), ('т', '4'), ('у', '0'), ('ф', '1'), ('х', '2'), ('ц', '3'),
   ('ч', '4'), ('ш', '5'), ('щ', '6'), ('ъ', '0'), ('ы', '0'), ('ь', '0'),
   ('э', '0'), ('ю', '0'), ('я', '0')]

/-- `codes.get(char, '0')`. -/
def soundexCode (c : Char) : Char :=
  (pyLookup soundexCodes c).getD '0'

/-- Encoding loop of `soundex_rus`: append a letter's code when it is not `'0'`
and differs from the last appended character. -/
def soundexLoop (encoded : Str) : Str → Str
  | [] => encoded
  | c :: cs =>
    let code := soundexCode c
    if code ≠ '0' && (encoded.isEmpty || decide (encoded.getLast? ≠ some code)) then
      soundexLoop (encoded ++ [code]) cs
    else
      soundexLoop encoded cs

/-- `FuzzySearcher.soundex_rus` (nlp_engine.py, lines 114-143): upper-cased
first letter followed by collapsed consonant-class codes, padded with `'0'`
and truncated to four characters; empty for the empty word. -/
def soundex_rus (word : Str) : Str :=
  match word with
  | [] => []
  | c :: rest => (soundexLoop [pyUpper c] (rest.map pyLower) ++ "000".data).take 4

/-- `FuzzySearcher.soundex_match` (nlp_engine.py, lines 145-151). -/
def soundex_match (q t : Str) : Bool :=
  decide (soundex_rus q = soundex_rus t)

/-- The commonly-confused-letters table of
`TextPreprocessor.get_word_variations` (nlp_engine.py, lines 41-45). -/
def common_typos : List (Char × List Str) :=
  [('а', ["о".data]), ('о', ["а".data]), ('е', ["э".data]),
   ('и', ["й".data, "ы".data]), ('т', ["тт".data, "д".data]),
   ('п', ["пп".data, "б".data]), ('к', ["кк".data, "г".data]),
   ('с', ["сс".data, "з".data]), ('в', ["вв".data, "ф".data])]

/-- Deduplication keeping first occurrences.  The source builds
`list(set(variations))`, whose iteration order is CPython-hash dependent; the
embedding fixes the first-occurrence order, and no claim settled here depends
on that order. -/
def dedupFirstAux (seen : List Str) : List Str → List Str
  | [] => []
  | x :: xs =>
    if x ∈ seen then dedupFirstAux seen xs else x :: dedupFirstAux (x :: seen) xs

def dedupFirst (l : List Str) : List Str :=
  dedupFirstAux [] l

/-- `TextPreprocessor.get_word_variations` (nlp_engine.py, lines 35-65): the
word itself, confused-letter substitutions, and (for words longer than three
characters) single-character deletions and doubled-letter collapses. -/
def get_word_variations (word : Str) : List Str :=
  let subs := (List.range word.length).flatMap (fun i =>
    match word.get? i with
    | some c =>
      match pyLookup common_typos c with
      | some reps => reps.map (fun r => word.take i ++ r ++ word.drop (i + 1))
      | none => []
    | none => [])
  let dels :=
    if 3 < word.length then
      (List.range word.length).map (fun i => word.take i ++ word.drop (i + 1))
    else []
  let dbls :=
    if 3 < word.length then
      ((List.range (word.length - 1)).filter
        (fun i => word.get? i = word.get? (i + 1))).map
        (fun i => word.take i ++ word.drop (i + 1))
    else []
  dedupFirst ([word] ++ subs ++ dels ++ dbls)

/-- A knowledge-base entry: the fields the engine reads from one JSON object.
`source` and `button_text` keep their raw optionality; `item.get('source',
'manual')` is `Entry.sourceVal`. -/
structure Entry where
  id : Option Int := none
  question : Str := []
  answer : Str := []
  tags : List Str := []
  source : Option Str := none
  button_text : Option Str := none
deriving DecidableEq

/-- `item.get('source', 'manual')`. -/
def Entry.sourceVal (e : Entry) : Str :=
  e.source.getD "manual".data

/-- Append an entry under a key of the inverted index, keeping dict insertion
order. -/
def indexAdd (idx : List (Str × List Entry)) (key : Str) (e : Entry) :
    List (Str × List Entry) :=
  match idx with
  | [] => [(key, [e])]
  | (k, es) :: rest =>
    if k = key then (k, es ++ [e]) :: rest else (k, es) :: indexAdd rest key e

def indexFind (idx : List (Str × List Entry)) (key : Str) : Option (List Entry) :=
  match idx with
  | [] => none
  | (k, es) :: rest => if k = key then some es else indexFind rest key

/-- `KnowledgeBaseSearcher._build_index` (nlp_engine.py, lines 176-197): index
every entry under each keyword of its normalised question and under the
Soundex code of its raw question. -/
def build_index (kb : List Entry) : List (Str × List Entry) :=
  kb.foldl (fun idx item =>
    let keywords := extract_keywords (normalize_text item.question)
    let idx1 := keywords.foldl (fun idx kw => indexAdd idx kw item) idx
    indexAdd idx1 (soundex_rus item.question) item) []

/-- The state of a `KnowledgeBaseSearcher`: the loaded collection and the
index built from it. -/
structure KBSearcher where
  kb_data : List Entry
  question_index : List (Str × List Entry)

def mkSearcher (kb : List Entry) : KBSearcher :=
  ⟨kb, build_index kb⟩

example : soundex_rus "привет".data = "П240".data := by decide

example : get_word_variations "abc".data = ["abc".data] := by decide

example : get_word_variations "кот".data
    = ["кот".data, "ккот".data, "гот".data, "кат".data, "котт".data,
       "код".data] := by decide

/-! ### `KnowledgeBaseSearcher.find_best_match` -/

/-- Whether the first string starts the second. -/
def startsWithChars : Str → Str → Bool
  | [], _ => true
  | _ :: _, [] => false
  | c :: cs, d :: ds => c = d && startsWithChars cs ds

/-- The Python substring test `needle in hay`. -/
def strContains : Str → Str → Bool
  | needle, [] => startsWithChars needle []
  | needle, d :: ds => startsWithChars needle (d :: ds) || strContains needle ds

/-- Keywords of the normalised user question. -/
def query_keywords (q : Str) : List Str :=
  extract_keywords (normalize_text q)

/-- Typo variations generated from the first three query keywords
(nlp_engine.py, lines 232-236). -/
def query_variations (q : Str) : List Str :=
  ((query_keywords q).take 3).flatMap get_word_variations

/-- The primary-pass source filter: `if source_type and item_source !=
source_type: continue`, where `item_source = item.get('source', 'manual')`. -/
def sourceMismatch (st : Option Str) (e : Entry) : Bool :=
  match st with
  | none => false
  | some t => decide (e.sourceVal ≠ t)

/-- The per-candidate confidence of the primary pass (nlp_engine.py, lines
238-273): fuzzy similarity, raised to at least `0.6` on a Soundex match of the
first ten characters and to at least `0.55` when one of the first five query
variations occurs in the candidate question, blended 60/40 with the
keyword-overlap ratio. -/
def primary_confidence (q : Str) (item : Entry) : ℚ :=
  let normalized_question := normalize_text q
  let keywords := query_keywords q
  let normalized_item := normalize_text item.question
  let similarity0 := fuzzy_ratio normalized_question normalized_item
  let similarity1 :=
    if soundex_match (normalized_question.take 10) (normalized_item.take 10) then
      max similarity0 0.6
    else similarity0
  let similarity :=
    if ((query_variations q).take 5).any (fun v => strContains v normalized_item) then
      max similarity1 0.55
    else similarity1
  let item_keywords := extract_keywords normalized_item
  let common := (keywords.dedup.filter (fun kw => decide (kw ∈ item_keywords))).length
  let keyword_overlap : ℚ := (common : ℚ) / ((max keywords.length 1 : ℕ) : ℚ)
  similarity * 0.6 + keyword_overlap * 0.4

/-- One step of the primary candidate loop: skip filtered sources, keep the
strictly best confidence seen so far. -/
def primaryStep (st : Option Str) (q : Str) (best : Option Entry × ℚ)
    (item : Entry) : Option Entry × ℚ :=
  if sourceMismatch st item then best
  else if best.2 < primary_confidence q item then (some item, primary_confidence q item)
  else best

/-- The secondary-pass source filter uses `item.get('source')` with no
`'manual'` default (nlp_engine.py, line 287). -/
def sourceMismatch2 (st : Option Str) (e : Entry) : Bool :=
  match st with
  | none => false
  | some t => decide (e.source ≠ some t)

/-- Number of query keywords occurring as substrings of the candidate's
normalised question (nlp_engine.py, line 291). -/
def secondary_matches (q : Str) (item : Entry) : ℕ :=
  ((query_keywords q).filter (fun kw => strContains kw (normalize_text item.question))).length

/-- One step of the secondary multi-keyword loop (nlp_engine.py, lines
286-297). -/
def secondaryStep (st : Option Str) (q : Str) (best : Option Entry × ℚ)
    (item : Entry) : Option Entry × ℚ :=
  if sourceMismatch2 st item then best
  else if 2 ≤ secondary_matches q item then
    if best.2 < (secondary_matches q item : ℚ) / ((query_keywords q).length : ℚ) then
      (some item, (secondary_matches q item : ℚ) / ((query_keywords q).length : ℚ))
    else best
  else best

/-- `KnowledgeBaseSearcher.find_best_match` (nlp_engine.py, lines 203-302).
The candidate-gathering loop puts entries into a Python `set`, but entries are
dicts and dicts are unhashable, so the first query keyword found in the index
raises `TypeError`; that path is the `Except.error` case.  When no keyword is
indexed the candidate set stays empty (falsy) and the whole collection is
scanned. -/
def find_best_match (s : KBSearcher) (q : Str) (source_type : Option Str)
    (threshold : ℚ) : Except Unit (Option Entry × ℚ) :=
  if s.kb_data.isEmpty then .ok (none, 0)
  else if (query_keywords q).any (fun kw => (indexFind s.question_index kw).isSome) then
    .error ()
  else
    let best := s.kb_data.foldl (primaryStep source_type q) (none, 0)
    if threshold ≤ best.2 then .ok best
    else
      let best2 :=
        if 1 < (query_keywords q).length then
          s.kb_data.foldl (secondaryStep source_type q) best
        else best
      if threshold * 0.8 ≤ best2.2 then .ok best2
      else .ok (none, 0)

/-- `KnowledgeBaseSearcher.find_by_exact_question` (nlp_engine.py, lines
304-322): first entry whose normalised question equals the normalised input,
subject to the source filter. -/
def find_by_exact_question (s : KBSearcher) (question : Str)
    (source_type : Option Str) : Option Entry :=
  s.kb_data.find? (fun item =>
    !(sourceMismatch source_type item)
      && decide (normalize_text item.question = normalize_text question))

theorem primaryStep_le (st : Option Str) (q : Str) (best : Option Entry × ℚ)
    (item : Entry) : best.2 ≤ (primaryStep st q best item).2 := by
  unfold primaryStep
  split
  · exact le_refl _
  · split
    · next h => exact le_of_lt h
    · exact le_refl _

theorem foldl_primary_le (st : Option Str) (q : Str) (best : Option Entry × ℚ)
    (l : List Entry) : best.2 ≤ (l.foldl (primaryStep st q) best).2 := by
  induction l generalizing best with
  | nil => exact le_refl _
  | cons e es ih =>
    exact le_trans (primaryStep_le st q best e) (ih (primaryStep st q best e))

theorem primaryStep_some {st : Option Str} {q : Str} {best : Option Entry × ℚ}
    {item : Entry} (h : best.1.isSome) : (primaryStep st q best item).1.isSome := by
  unfold primaryStep
  split
  · exact h
  · split
    · rfl
    · exact h

theorem foldl_primary_some {st : Option Str} {q : Str} {best : Option Entry × ℚ}
    {l : List Entry} (h : best.1.isSome) :
    ((l.foldl (primaryStep st q) best).1).isSome := by
  induction l generalizing best with
  | nil => exact h
  | cons e es ih => exact ih (primaryStep_some h)

theorem foldl_primary_eq_or_some (st : Option Str) (q : Str)
    (best : Option Entry × ℚ) (l : List Entry) :
    l.foldl (primaryStep st q) best = best
      ∨ ((l.foldl (primaryStep st q) best).1).isSome := by
  induction l generalizing best with
  | nil => exact Or.inl rfl
  | cons e es ih =>
    by_cases hstep : primaryStep st q best e = best
    · rw [List.foldl_cons, hstep]
      exact ih best
    · refine Or.inr ?_
      rw [List.foldl_cons]
      apply foldl_primary_some
      unfold primaryStep at hstep ⊢
      split at hstep
      · exact absurd rfl hstep
      next hmis =>
        split at hstep
        next hlt =>
          rw [if_neg hmis, if_pos hlt]
          rfl
        · exact absurd rfl hstep

theorem foldl_primary_bound (st : Option Str) (q : Str)
    (best : Option Entry × ℚ) (l : List Entry) :
    ∀ e ∈ l, sourceMismatch st e = false →
      primary_confidence q e ≤ (l.foldl (primaryStep st q) best).2 := by
  induction l generalizing best with
  | nil => intro e he; simp at he
  | cons d ds ih =>
    intro e he hmis
    rcases List.mem_cons.mp he with h' | h'
    · subst h'
      rw [List.foldl_cons]
      refine le_trans ?_ (foldl_primary_le st q _ ds)
      unfold primaryStep
      rw [hmis]
      simp only [Bool.false_eq_true, if_false]
      split
      · exact le_refl _
      · next h => exact le_of_not_lt h
    · exact ih (primaryStep st q best d) e h' hmis

theorem secondaryStep_le (st : Option Str) (q : Str) (best : Option Entry × ℚ)
    (item : Entry) : best.2 ≤ (secondaryStep st q best item).2 := by
  unfold secondaryStep
  split
  · exact le_refl _
  · split
    · split
      · next h => exact le_of_lt h
      · exact le_refl _
    · exact le_refl _

theorem foldl_secondary_le (st : Option Str) (q : Str) (best : Option Entry × ℚ)
    (l : List Entry) : best.2 ≤ (l.foldl (secondaryStep st q) best).2 := by
  induction l generalizing best with
  | nil => exact le_refl _
  | cons e es ih =>
    exact le_trans (secondaryStep_le st q best e) (ih (secondaryStep st q best e))

theorem secondaryStep_some {st : Option Str} {q : Str} {best : Option Entry × ℚ}
    {item : Entry} (h : best.1.isSome) : (secondaryStep st q best item).1.isSome := by
  unfold secondaryStep
  split
  · exact h
  · split
    · split
      · rfl
      · exact h
    · exact h

theorem foldl_secondary_some {st : Option Str} {q : Str} {best : Option Entry × ℚ}
    {l : List Entry} (h : best.1.isSome) :
    ((l.foldl (secondaryStep st q) best).1).isSome := by
  induction l generalizing best with
  | nil => exact h
  | cons e es ih => exact ih (secondaryStep_some h)

theorem foldl_secondary_eq_or_some (st : Option Str) (q : Str)
    (best : Option Entry × ℚ) (l : List Entry) :
    l.foldl (secondaryStep st q) best = best
      ∨ ((l.foldl (secondaryStep st q) best).1).isSome := by
  induction l generalizing best with
  | nil => exact Or.inl rfl
  | cons e es ih =>
    by_cases hstep : secondaryStep st q best e = best
    · rw [List.foldl_cons, hstep]
      exact ih best
    · refine Or.inr ?_
      rw [List.foldl_cons]
      apply foldl_secondary_some
      unfold secondaryStep at hstep ⊢
      split at hstep
      · exact absurd rfl hstep
      next hmis =>
        split at hstep
        next hge =>
          split at hstep
          next hlt =>
            rw [if_neg hmis, if_pos hge, if_pos hlt]
            rfl
          · exact absurd rfl hstep
        · exact absurd rfl hstep

/-- C1 (amended): for every positive threshold `t`, when `find_best_match`
returns an entry its confidence is at least `t * 0.8` (the secondary
multi-keyword pass accepts entries in the band `[0.8·t, t)`, so `≥ t` is
guaranteed only for the primary pass); when it returns no entry (and does not
raise on an indexed keyword), either the knowledge base is empty or every
source-compatible candidate's primary confidence is below `t`. -/
theorem find_best_match_threshold_amended (s : KBSearcher) (q : Str)
    (st : Option Str) (t : ℚ) (ht : 0 < t) :
    (∀ e c, find_best_match s q st t = .ok (some e, c) → t * 0.8 ≤ c) ∧
    (∀ c, find_best_match s q st t = .ok (none, c) →
      s.kb_data = [] ∨ ∀ e ∈ s.kb_data, sourceMismatch st e = false →
        primary_confidence q e < t) := by
  unfold find_best_match
  by_cases hemp : s.kb_data.isEmpty = true
  · simp only [hemp, if_true]
    refine ⟨fun e c h => by simp at h, fun c _ => Or.inl (List.isEmpty_iff.mp hemp)⟩
  · simp only [hemp, Bool.false_eq_true, if_false]
    by_cases hidx :
        ((query_keywords q).any fun kw => (indexFind s.question_index kw).isSome) = true
    · simp only [hidx, if_true]
      exact ⟨fun e c h => by simp at h, fun c h => by simp at h⟩
    · simp only [hidx, Bool.false_eq_true, if_false]
      set b1 := s.kb_data.foldl (primaryStep st q) (none, 0) with hb1def
      have hb1cases := foldl_primary_eq_or_some st q (none, 0) s.kb_data
      by_cases hb : t ≤ b1.2
      · rw [if_pos hb]
        constructor
        · intro e c h
          simp only [Except.ok.injEq] at h
          have hc := congrArg Prod.snd h
          simp only at hc
          rw [← hc]
          calc t * 0.8 ≤ t := by linarith
          _ ≤ _ := hb
        · intro c h
          simp only [Except.ok.injEq] at h
          rcases hb1cases with heq | hsome
          · rw [hb1def, heq] at hb
            exact absurd hb (by simp; linarith)
          · rw [← hb1def, h] at hsome
            simp at hsome
      · rw [if_neg hb]
        by_cases hlen : 1 < (query_keywords q).length
        · rw [if_pos hlen]
          by_cases h8 : t * 0.8 ≤ (s.kb_data.foldl (secondaryStep st q) b1).2
          · rw [if_pos h8]
            constructor
            · intro e c h
              simp only [Except.ok.injEq] at h
              have hc := congrArg Prod.snd h
              simp only at hc
              rw [← hc]
              exact h8
            · intro c h
              simp only [Except.ok.injEq] at h
              exfalso
              have heqb1 : s.kb_data.foldl (secondaryStep st q) b1 = b1 := by
                rcases foldl_secondary_eq_or_some st q b1 s.kb_data with heq | hsome
                · exact heq
                · rw [h] at hsome
                  simp at hsome
              have hb10 : b1 = (none, 0) := by
                rcases hb1cases with heq2 | hsome2
                · rw [← hb1def] at heq2
                  exact heq2
                · rw [← hb1def, ← heqb1, h] at hsome2
                  simp at hsome2
              rw [heqb1, hb10] at h8
              simp at h8
              linarith
          · rw [if_neg h8]
            constructor
            · intro e c h
              simp at h
            · intro c _
              refine Or.inr (fun e he hmis => ?_)
              exact lt_of_le_of_lt (foldl_primary_bound st q (none, 0) s.kb_data e he hmis)
                (lt_of_not_le hb)
        · rw [if_neg hlen]
          by_cases h8 : t * 0.8 ≤ b1.2
          · rw [if_pos h8]
            constructor
            · intro e c h
              simp only [Except.ok.injEq] at h
              have hc := congrArg Prod.snd h
              simp only at hc
              rw [← hc]
              exact h8
            · intro c h
              simp only [Except.ok.injEq] at h
              exfalso
              have hb10 : b1 = (none, 0) := by
                rcases hb1cases with heq2 | hsome2
                · rw [← hb1def] at heq2
                  exact heq2
                · rw [← hb1def, h] at hsome2
                  simp at hsome2
              rw [hb10] at h8
              simp at h8
              linarith
          · rw [if_neg h8]
            constructor
            · intro e c h
              simp at h
            · intro c _
              refine Or.inr (fun e he hmis => ?_)
              exact lt_of_le_of_lt (foldl_primary_bound st q (none, 0) s.kb_data e he hmis)
                (lt_of_not_le hb)

/-- Concrete knowledge-base entry used to exercise the secondary pass of
`find_best_match`. -/
def exEntry : Entry :=
  { question := "abcxyz defuvw".data, answer := "answer text".data }

def exSearcher : KBSearcher :=
  mkSearcher [exEntry]

def exQuery : Str :=
  "abc def ggg hhh iii".data

theorem exQuery_fuzzy :
    fuzzy_ratio exQuery (normalize_text exEntry.question) = 113/400 := by
  have hni : normalize_text exEntry.question = exEntry.question := by decide
  have hm : matchesTotal exQuery exEntry.question = 7 := by decide
  have hlen1 : exQuery.length = 19 := by decide
  have hlen2 : exEntry.question.length = 13 := by decide
  have hs1 : pySplit exQuery
      = ["abc".data, "def".data, "ggg".data, "hhh".data, "iii".data] := by decide
  have hs2 : pySplit exEntry.question = ["abcxyz".data, "defuvw".data] := by decide
  have hi : setInterCount ["abc".data, "def".data, "ggg".data, "hhh".data, "iii".data]
      ["abcxyz".data, "defuvw".data] = 0 := by decide
  have hc : setCount ["abc".data, "def".data, "ggg".data, "hhh".data, "iii".data]
      = 5 := by decide
  rw [hni]
  simp only [fuzzy_ratio, ratio_SM, hm, hlen1, hlen2, hs1, hs2, hi, hc,
    firstLetterScore]
  norm_num

theorem exQuery_primary_confidence : primary_confidence exQuery exEntry = 9/25 := by
  have hnq : normalize_text exQuery = exQuery := by decide
  have hni : normalize_text exEntry.question = exEntry.question := by decide
  have hsx : soundex_match (exQuery.take 10) (exEntry.question.take 10) = true := by
    decide
  have hvar : ((query_variations exQuery).take 5).any
      (fun v => strContains v exEntry.question) = true := by decide
  have hcom : ((query_keywords exQuery).dedup.filter
      (fun kw => decide (kw ∈ extract_keywords exEntry.question))).length = 0 := by
    decide
  have hqlen : (query_keywords exQuery).length = 5 := by decide
  have hfz := exQuery_fuzzy
  rw [hni] at hfz
  simp only [primary_confidence, hnq, hni, hsx, hvar, hcom, hqlen, hfz, if_true]
  norm_num [max_def]

theorem exQuery_secondary_matches : secondary_matches exQuery exEntry = 2 := by
  decide

/-- Evaluation of the example: the primary pass scores `0.36 < 0.5`, the
secondary multi-keyword pass scores `2/5`, and `find_best_match` returns the
entry at confidence `2/5` against threshold `1/2`. -/
theorem fbm_example_eval :
    find_best_match exSearcher exQuery none (1/2) = .ok (some exEntry, 2/5) := by
  have hemp : exSearcher.kb_data.isEmpty = false := by decide
  have hidx : ((query_keywords exQuery).any
      (fun kw => (indexFind exSearcher.question_index kw).isSome)) = false := by
    decide
  have hkb : exSearcher.kb_data = [exEntry] := rfl
  have hmis : sourceMismatch none exEntry = false := rfl
  have hqlen : (query_keywords exQuery).length = 5 := by decide
  have hb1 : exSearcher.kb_data.foldl (primaryStep none exQuery) (none, 0)
      = (some exEntry, 9/25) := by
    rw [hkb, List.foldl_cons, List.foldl_nil]
    unfold primaryStep
    rw [hmis, exQuery_primary_confidence]
    norm_num
  have hb2 : exSearcher.kb_data.foldl (secondaryStep none exQuery)
      (some exEntry, 9/25) = (some exEntry, 2/5) := by
    rw [hkb, List.foldl_cons, List.foldl_nil]
    unfold secondaryStep
    rw [show sourceMismatch2 none exEntry = false from rfl,
      exQuery_secondary_matches, hqlen]
    norm_num
  unfold find_best_match
  rw [hemp, hidx]
  simp only [Bool.false_eq_true, if_false]
  rw [hb1]
  rw [if_neg (show ¬((1 : ℚ)/2 ≤ ((some exEntry, (9 : ℚ)/25)).2) from by norm_num)]
  rw [if_pos (show 1 < (query_keywords exQuery).length from by rw [hqlen]; norm_num)]
  rw [hb2]
  rw [if_pos (show (1 : ℚ)/2 * 0.8 ≤ ((some exEntry, (2 : ℚ)/5)).2 from by norm_num)]

/-- C1, counterexample: with the single entry `exEntry` and threshold `0.5`,
`find_best_match` returns the entry with confidence `2/5 < 0.5` through the
secondary multi-keyword pass, so a returned confidence need not reach the
requested threshold. -/
theorem find_best_match_threshold_cex :
    find_best_match exSearcher exQuery none (1/2) = .ok (some exEntry, 2/5)
      ∧ ¬((1/2 : ℚ) ≤ 2/5) := by
  constructor
  · exact fbm_example_eval
  · norm_num

/-- Witness for `find_best_match_threshold_amended` at the concrete example. -/
theorem find_best_match_threshold_amended_witness :
    (1/2 : ℚ) * 0.8 ≤ 2/5 :=
  (find_best_match_threshold_amended exSearcher exQuery none (1/2)
    (by norm_num)).1 exEntry (2/5) fbm_example_eval

/-! ### `IntentClassifier`: a small regex engine for the pattern subset used -/

/-- One atom of the regex subset the intent patterns use: a literal character
or a character class `[...]`. -/
inductive RAtom where
  | lit (c : Char)
  | cls (cs : List Char)
deriving DecidableEq

/-- Parse the regex subset of the intent table: literals, character classes
and the `?` quantifier.  Fuel is the input length; every step consumes at
least one character. -/
def parsePatAux : ℕ → Str → List (RAtom × Bool)
  | 0, _ => []
  | _, [] => []
  | fuel + 1, '[' :: rest =>
    let cs := rest.takeWhile (fun c => decide (c ≠ ']'))
    let rest2 := (rest.dropWhile (fun c => decide (c ≠ ']'))).drop 1
    match rest2 with
    | '?' :: rest3 => (RAtom.cls cs, true) :: parsePatAux fuel rest3
    | _ => (RAtom.cls cs, false) :: parsePatAux fuel rest2
  | fuel + 1, c :: rest =>
    match rest with
    | '?' :: rest2 => (RAtom.lit c, true) :: parsePatAux fuel rest2
    | _ => (RAtom.lit c, false) :: parsePatAux fuel rest

def parsePat (s : Str) : List (RAtom × Bool) :=
  parsePatAux s.length s

def atomMatches (a : RAtom) (c : Char) : Bool :=
  match a with
  | RAtom.lit d => decide (c = d)
  | RAtom.cls cs => decide (c ∈ cs)

/-- Match a parsed pattern at the start of a string. -/
def matchAt : List (RAtom × Bool) → Str → Bool
  | [], _ => true
  | (a, opt) :: ps, s =>
    (match s with
     | c :: cs => atomMatches a c && matchAt ps cs
     | [] => false)
    || (opt && matchAt ps s)

def searchFrom (ps : List (RAtom × Bool)) : Str → Bool
  | [] => matchAt ps []
  | c :: cs => matchAt ps (c :: cs) || searchFrom ps cs

/-- `re.search(pattern, text)` as a Boolean, for the pattern subset of the
intent table. -/
def reSearch (pat : Str) (text : Str) : Bool :=
  searchFrom (parsePat pat) text

example : reSearch "оплат[иь]т?ь?".data "как оплатить счет".data = true := by decide

example : reSearch "товар[ы]? от".data "оплатить товар от поставщика".data = true := by
  decide

example : reSearch "счет[- ]?фактур[уа]?".data "нужна счет-фактура".data = true := by
  decide

example : reSearch "оплат[иь]т?ь?".data "поступление товара".data = false := by decide

/-- One row of the intent table: three pattern groups, a weight and a
threshold. -/
structure IntentPattern where
  name : Str
  primary : List Str
  secondary : List Str
  negative : List Str
  weight : ℚ
  threshold : ℚ

/-- Intent table rows of `IntentClassifier.__init__`
(nlp_engine.py, lines 329-435). -/
def paymentIntent : IntentPattern :=
  { name := "payment_to_supplier".data,
    primary := ["оплат[иь]т?ь?".data, "платеж".data, "перечисл[еи]т?ь?".data,
      "списан[ие]".data, "выплат[и]т?ь?".data],
    secondary := ["поставщик[уа]?".data, "контрагенту".data, "поставку".data,
      "за товар[ы]?".data, "за услугу".data],
    negative := ["оприход".data, "поступл".data, "получ[еи]".data,
      "принят".data, "товар[ы]? от".data],
    weight := 2.0, threshold := 1.5 }

def goodsReceiptIntent : IntentPattern :=
  { name := "goods_receipt".data,
    primary := ["оприход[ао]в[а]т?ь?".data, "поступл[еи]".data,
      "получ[еи]л?".data, "принят[ь]".data, "приемк[ау]".data],
    secondary := ["товар[ы]?".data, "материал[ы]?".data, "тмц".data,
      "от поставщик".data, "купил".data, "закупил".data],
    negative := ["оплат".data, "платеж".data, "перечисл".data, "деньг".data,
      "списан".data],
    weight := 2.0, threshold := 1.5 }

def invoiceCreationIntent : IntentPattern :=
  { name := "invoice_creation".data,
    primary := ["накладн[аую]".data, "счет[- ]?фактур[уа]?".data, "упд".data,
      "торг[- ]?12".data],
    secondary := ["созда[ть]".data, "выписат[ь]".data, "оформит[ь]".data,
      "провести".data],
    negative := ["оплат".data, "получ[еи]л?".data, "принял".data],
    weight := 1.8, threshold := 1.3 }

def bankStatementIntent : IntentPattern :=
  { name := "bank_statement".data,
    primary := ["выписк[ау]".data, "банковск[аую]".data, "загруз[и]т?ь?".data,
      "импорт[и]".data],
    secondary := ["банк[аеу]?".data, "счет[ауе]?".data, "операци[ий]".data,
      "платеж[еи]".data],
    negative := ["касс".data, "наличн".data],
    weight := 1.5, threshold := 1.2 }

def cashOperationsIntent : IntentPattern :=
  { name := "cash_operations".data,
    primary := ["касс[ауеы]".data, "наличн[ые]".data, "пко".data, "рко".data,
      "ордер[ау]".data],
    secondary := ["приходн[ой]".data, "расходн[ой]".data, "выдат[ь]".data,
      "получ[и]т?ь?".data],
    negative := ["безнал".data, "банк".data, "перечисл".data],
    weight := 1.5, threshold := 1.2 }

def reportGenerationIntent : IntentPattern :=
  { name := "report_generation".data,
    primary := ["отчет[ау]?".data, "ведомост[ьи]".data, "анализ[ау]?".data,
      "статистик[ау]".data],
    secondary := ["сформир[оа]в[а]т?ь?".data, "посмотр[е]т?ь?".data,
      "получит[ь]".data, "построит[ь]".data],
    negative := ["документ".data, "провести".data, "создат[ь]".data],
    weight := 1.3, threshold := 1.0 }

def debtAnalysisIntent : IntentPattern :=
  { name := "debt_analysis".data,
    primary := ["задолженност[ьи]".data, "дебиторск[аую]".data,
      "кредиторск[аую]".data, "долг[иа]".data],
    secondary := ["посмотр[е]т?ь?".data, "проверит[ь]".data,
      "проанализ[и]".data, "контрагент".data],
    negative := ["оплат".data, "перечисл".data, "провести".data],
    weight := 1.4, threshold := 1.1 }

def advanceReportIntent : IntentPattern :=
  { name := "advance_report".data,
    primary := ["авансов[ый]".data, "подотчет[н]".data, "отчет сотрудник".data],
    secondary := ["созда[ть]".data, "заполни[ть]".data, "провести".data,
      "сда[ть]".data],
    negative := ["выдат[ь]".data, "получ[и]т?ь?".data, "деньг[и] под".data],
    weight := 1.4, threshold := 1.1 }

def goodsBalanceIntent : IntentPattern :=
  { name := "goods_balance".data,
    primary := ["остатк[иау]".data, "налич[ие]".data, "склад[аеу]".data,
      "запас[ыа]".data],
    secondary := ["товар[ы]?".data, "посмотр[е]т?ь?".data, "проверит[ь]".data,
      "сколько есть".data],
    negative := ["продаж".data, "отгрузк".data, "реализац".data],
    weight := 1.3, threshold := 1.0 }

def salesPeriodIntent : IntentPattern :=
  { name := "sales_period".data,
    primary := ["продаж[и] по".data, "динамик[ау]".data, "период[ауы]?".data,
      "месяц[ауы]?".data],
    secondary := ["график".data, "тенденц".data, "сравнен[ие]".data],
    negative := ["оприход".data, "поступл".data, "закупк".data],
    weight := 1.3, threshold := 1.0 }

def greetingIntent : IntentPattern :=
  { name := "greeting".data,
    primary := ["привет".data, "здравствуй".data, "добр[ыйое]".data,
      "hello".data, "hi".data, "здрасте".data],
    secondary := [], negative := [], weight := 3.0, threshold := 0.5 }

def farewellIntent : IntentPattern :=
  { name := "farewell".data,
    primary := ["пока".data, "до свидан[ия]".data, "выход".data,
      "законч[и]т?ь?".data, "спасибо".data],
    secondary := [], negative := [], weight := 3.0, threshold := 0.5 }

def helpRequestIntent : IntentPattern :=
  { name := "help_request".data,
    primary := ["помощ[ьи]".data, "помог[и]".data, "подскаж[и]".data,
      "посовету[йи]".data],
    secondary := ["что ты умееш[ь]".data, "команд[ы]".data,
      "инструкц[ия]".data],
    negative := [], weight := 2.5, threshold := 0.8 }

def buttonClickIntent : IntentPattern :=
  { name := "button_click".data,
    primary := ["button:".data, "menu:".data, "кнопк[ауи]".data,
      "клик[ау]".data],
    secondary := ["нажат[ь]".data, "нажм[и]".data, "выбрат[ь]".data,
      "нажы".data, "кликн[уть]".data],
    negative := [], weight := 2.0, threshold := 0.7 }

def unknownIntent : IntentPattern :=
  { name := "unknown".data,
    primary := [], secondary := [], negative := [], weight := 0.0,
    threshold := 0.0 }

/-- The intent table in dict insertion order. -/
def intent_patterns : List IntentPattern :=
  [paymentIntent, goodsReceiptIntent, invoiceCreationIntent,
   bankStatementIntent, cashOperationsIntent, reportGenerationIntent,
   debtAnalysisIntent, advanceReportIntent, goodsBalanceIntent,
   salesPeriodIntent, greetingIntent, farewellIntent, helpRequestIntent,
   buttonClickIntent, unknownIntent]

/-- The intents `classify_with_context` skips when scoring
(nlp_engine.py, line 506). -/
def excluded_from_scoring : List Str :=
  ["greeting".data, "farewell".data, "help_request".data, "button_click".data,
   "unknown".data]

/-- The weighted score of one intent (nlp_engine.py, lines 509-538):
`2×weight` per primary hit, `+1×weight` per secondary hit, `−3×weight` per
negative hit, scaled by `0.5 + 0.5·(primary/(primary+secondary))` when any
positive pattern hit, floored at zero. -/
def intent_score (p : IntentPattern) (text : Str) : ℚ :=
  let primary_matches := (p.primary.filter (fun pat => reSearch pat text)).length
  let secondary_matches := (p.secondary.filter (fun pat => reSearch pat text)).length
  let negative_matches := (p.negative.filter (fun pat => reSearch pat text)).length
  let score : ℚ := p.weight * 2 * primary_matches + p.weight * 1 * secondary_matches
    - p.weight * 3 * negative_matches
  let total := primary_matches + secondary_matches
  let score :=
    if 0 < total then
      score * (0.5 + ((primary_matches : ℚ) / (total : ℚ)) * 0.5)
    else score
  max score 0

/-- The score dictionary of `classify_with_context`, in insertion order. -/
def scores_list (text : Str) : List (Str × ℚ) :=
  (intent_patterns.filter (fun p => decide (p.name ∉ excluded_from_scoring))).map
    (fun p => (p.name, intent_score p text))

/-- First pair attaining the maximal score (Python `max` with a key keeps the
first maximum in iteration order). -/
def bestOf (x : Str × ℚ) (xs : List (Str × ℚ)) : Str × ℚ :=
  xs.foldl (fun b y => if b.2 < y.2 then y else b) x

/-- Python `max(scores, key=scores.get)`: the first key attaining the maximal
score, paired with that score. -/
def bestScored (text : Str) : Str × ℚ :=
  match scores_list text with
  | [] => ("unknown".data, 0)
  | x :: xs => bestOf x xs

/-- `self.intent_patterns[name]['threshold']`. -/
def intentThreshold (name : Str) : ℚ :=
  ((intent_patterns.find? (fun p => decide (p.name = name))).map
    IntentPattern.threshold).getD 0

/-- `IntentClassifier.classify_with_context` (nlp_engine.py, lines 495-553):
texts containing `button:`/`menu:` short-circuit to `('button_click', 1.0)`;
otherwise the best-scoring intent wins when its score reaches its own
threshold, and `'unknown'` is returned with the same normalised confidence
when it does not. -/
def classify_with_context (text : Str) : Str × ℚ :=
  let text_lower := text.map pyLower
  if strContains "button:".data text_lower || strContains "menu:".data text_lower then
    ("button_click".data, 1)
  else if (scores_list text_lower).isEmpty then ("unknown".data, 0)
  else
    let best := bestScored text_lower
    let threshold := intentThreshold best.1
    let confidence := if 0 < threshold then min (best.2 / (threshold * 2)) 1 else 0.5
    if threshold ≤ best.2 then (best.1, confidence) else ("unknown".data, confidence)

theorem scores_list_ne_nil (t : Str) : (scores_list t).isEmpty = false := rfl

/-- The ten intents that take part in scoring, in table order. -/
def scoredIntents : List IntentPattern :=
  [paymentIntent, goodsReceiptIntent, invoiceCreationIntent,
   bankStatementIntent, cashOperationsIntent, reportGenerationIntent,
   debtAnalysisIntent, advanceReportIntent, goodsBalanceIntent,
   salesPeriodIntent]

theorem intent_patterns_filter_eq :
    intent_patterns.filter (fun p => decide (p.name ∉ excluded_from_scoring))
      = scoredIntents := rfl

theorem bestOf_mem (x : Str × ℚ) (xs : List (Str × ℚ)) :
    bestOf x xs ∈ x :: xs := by
  unfold bestOf
  induction xs generalizing x with
  | nil => simp
  | cons y ys ih =>
    rw [List.foldl_cons]
    by_cases hc : x.2 < y.2
    · rw [if_pos hc]
      rcases List.mem_cons.mp (ih y) with h' | h'
      · rw [h']
        exact List.mem_cons_of_mem _ (List.mem_cons_self _ _)
      · exact List.mem_cons_of_mem _ (List.mem_cons_of_mem _ h')
    · rw [if_neg hc]
      rcases List.mem_cons.mp (ih x) with h' | h'
      · rw [h']
        exact List.mem_cons_self _ _
      · exact List.mem_cons_of_mem _ (List.mem_cons_of_mem _ h')

theorem bestScored_exists (t : Str) :
    ∃ p, p ∈ scoredIntents ∧ (bestScored t).1 = p.name
      ∧ (bestScored t) = (p.name, intent_score p t) := by
  have hne := scores_list_ne_nil t
  unfold bestScored
  cases h : scores_list t with
  | nil => rw [h] at hne; simp at hne
  | cons x xs =>
    have hmem : bestOf x xs ∈ scores_list t := by
      rw [h]
      exact bestOf_mem x xs
    unfold scores_list at hmem
    rw [intent_patterns_filter_eq, List.mem_map] at hmem
    obtain ⟨p, hp, hpe⟩ := hmem
    refine ⟨p, hp, ?_, ?_⟩
    · show (bestOf x xs).1 = p.name
      rw [← hpe]
    · show bestOf x xs = (p.name, intent_score p t)
      rw [← hpe]

theorem scoredIntents_name_ne_unknown :
    ∀ p ∈ scoredIntents, p.name ≠ "unknown".data := by
  intro p hp
  simp only [scoredIntents, List.mem_cons, List.not_mem_nil, or_false] at hp
  rcases hp with rfl | rfl | rfl | rfl | rfl | rfl | rfl | rfl | rfl | rfl <;> decide

theorem scoredIntents_threshold (p : IntentPattern) (hp : p ∈ scoredIntents) :
    intentThreshold p.name = p.threshold ∧ 0 < p.threshold := by
  simp only [scoredIntents, List.mem_cons, List.not_mem_nil, or_false] at hp
  rcases hp with rfl | rfl | rfl | rfl | rfl | rfl | rfl | rfl | rfl | rfl <;>
    exact ⟨rfl, by norm_num [paymentIntent, goodsReceiptIntent,
      invoiceCreationIntent, bankStatementIntent, cashOperationsIntent,
      reportGenerationIntent, debtAnalysisIntent, advanceReportIntent,
      goodsBalanceIntent, salesPeriodIntent]⟩

theorem bestScored_name_ne_unknown (t : Str) :
    (bestScored t).1 ≠ "unknown".data := by
  obtain ⟨p, hp, hname, _⟩ := bestScored_exists t
  rw [hname]
  exact scoredIntents_name_ne_unknown p hp

theorem bestScored_threshold_pos (t : Str) :
    0 < intentThreshold (bestScored t).1 := by
  obtain ⟨p, hp, hname, _⟩ := bestScored_exists t
  obtain ⟨heq, hpos⟩ := scoredIntents_threshold p hp
  rw [hname, heq]
  exact hpos

theorem intent_score_eval (p : IntentPattern) (t : Str) (np ns nn : ℕ)
    (hp : (p.primary.filter (fun pat => reSearch pat t)).length = np)
    (hs : (p.secondary.filter (fun pat => reSearch pat t)).length = ns)
    (hn : (p.negative.filter (fun pat => reSearch pat t)).length = nn) :
    intent_score p t =
      max (if 0 < np + ns then
        (p.weight * 2 * np + p.weight * 1 * ns - p.weight * 3 * nn)
          * (0.5 + ((np : ℚ) / ((np + ns : ℕ) : ℚ)) * 0.5)
      else p.weight * 2 * np + p.weight * 1 * ns - p.weight * 3 * nn) 0 := by
  simp only [intent_score, hp, hs, hn]

theorem intent_score_no_positive (p : IntentPattern) (t : Str)
    (hp : (p.primary.filter (fun pat => reSearch pat t)).length = 0)
    (hs : (p.secondary.filter (fun pat => reSearch pat t)).length = 0)
    (hw : 0 ≤ p.weight) : intent_score p t = 0 := by
  rw [intent_score_eval p t 0 0 _ hp hs rfl]
  rw [if_neg (by norm_num)]
  have h1 : (0 : ℚ) ≤ p.weight * 3
      * ((p.negative.filter (fun pat => reSearch pat t)).length : ℚ) :=
    mul_nonneg (mul_nonneg hw (by norm_num)) (Nat.cast_nonneg _)
  apply max_eq_right
  push_cast
  nlinarith

/-- Concrete text demonstrating negative-pattern suppression: the payment
intent's primary pattern hits, but the negative pattern `товар[ы]? от` wipes
its score. -/
def suppressionText : Str :=
  "оплатить товар от поставщика".data

theorem suppression_payment_score :
    intent_score paymentIntent suppressionText = 0 := by
  rw [intent_score_eval paymentIntent suppressionText 1 1 1 (by decide)
    (by decide) (by decide)]
  norm_num [paymentIntent]

theorem suppression_goods_receipt_score :
    intent_score goodsReceiptIntent suppressionText = 0 := by
  rw [intent_score_eval goodsReceiptIntent suppressionText 0 2 1 (by decide)
    (by decide) (by decide)]
  norm_num [goodsReceiptIntent]

theorem suppression_goods_balance_score :
    intent_score goodsBalanceIntent suppressionText = 13/20 := by
  rw [intent_score_eval goodsBalanceIntent suppressionText 0 1 0 (by decide)
    (by decide) (by decide)]
  norm_num [goodsBalanceIntent, max_def]

theorem suppression_best :
    bestScored suppressionText = ("goods_balance".data, 13/20) := by
  have h0 : bestScored suppressionText
      = bestOf ("payment_to_supplier".data, intent_score paymentIntent suppressionText)
        [("goods_receipt".data, intent_score goodsReceiptIntent suppressionText),
         ("invoice_creation".data, intent_score invoiceCreationIntent suppressionText),
         ("bank_statement".data, intent_score bankStatementIntent suppressionText),
         ("cash_operations".data, intent_score cashOperationsIntent suppressionText),
         ("report_generation".data, intent_score reportGenerationIntent suppressionText),
         ("debt_analysis".data, intent_score debtAnalysisIntent suppressionText),
         ("advance_report".data, intent_score advanceReportIntent suppressionText),
         ("goods_balance".data, intent_score goodsBalanceIntent suppressionText),
         ("sales_period".data, intent_score salesPeriodIntent suppressionText)] := rfl
  rw [h0, suppression_payment_score, suppression_goods_receipt_score,
    suppression_goods_balance_score,
    intent_score_no_positive invoiceCreationIntent suppressionText (by decide)
      (by decide) (by norm_num [invoiceCreationIntent]),
    intent_score_no_positive bankStatementIntent suppressionText (by decide)
      (by decide) (by norm_num [bankStatementIntent]),
    intent_score_no_positive cashOperationsIntent suppressionText (by decide)
      (by decide) (by norm_num [cashOperationsIntent]),
    intent_score_no_positive reportGenerationIntent suppressionText (by decide)
      (by decide) (by norm_num [reportGenerationIntent]),
    intent_score_no_positive debtAnalysisIntent suppressionText (by decide)
      (by decide) (by norm_num [debtAnalysisIntent]),
    intent_score_no_positive advanceReportIntent suppressionText (by decide)
      (by decide) (by norm_num [advanceReportIntent]),
    intent_score_no_positive salesPeriodIntent suppressionText (by decide)
      (by decide) (by norm_num [salesPeriodIntent])]
  unfold bestOf
  simp only [List.foldl_cons, List.foldl_nil]
  norm_num

theorem suppression_classify :
    classify_with_context suppressionText = ("unknown".data, 13/40) := by
  have hlow : suppressionText.map pyLower = suppressionText := by decide
  have hbtn : strContains "button:".data suppressionText = false := by decide
  have hmenu : strContains "menu:".data suppressionText = false := by decide
  simp only [classify_with_context, hlow, hbtn, hmenu, Bool.or_self,
    Bool.false_eq_true, if_false, scores_list_ne_nil]
  rw [suppression_best]
  rw [show intentThreshold "goods_balance".data = goodsBalanceIntent.threshold
    from rfl]
  simp only [goodsBalanceIntent]
  rw [if_neg (by norm_num), if_pos (by norm_num)]
  norm_num [min_def, inf_eq_min, Prod.mk.injEq]

/-- C3 (amended): for every text not carrying the `button:`/`menu:` bypass
markers, `classify_with_context` returns the first best-scoring intent exactly
when that intent's weighted score (2×weight per primary hit, +1×weight per
secondary hit, −3×weight per negative hit, match-ratio scaled, floored at
zero) reaches the intent's own threshold, and otherwise returns the sentinel
`'unknown'` with the best sub-threshold score normalised against twice that
intent's threshold, capped at 1; texts containing `button:` or `menu:`
short-circuit to `('button_click', 1.0)` instead.  A negative pattern hit
subtracts 3×weight and suppresses an intent even when a primary pattern
matched, as on `"оплатить товар от поставщика"`. -/
theorem classify_with_context_argmax_amended :
    (∀ text : Str,
      strContains "button:".data (text.map pyLower) = false →
      strContains "menu:".data (text.map pyLower) = false →
      (((classify_with_context text).1 = (bestScored (text.map pyLower)).1
          ↔ intentThreshold (bestScored (text.map pyLower)).1
              ≤ (bestScored (text.map pyLower)).2)
        ∧ ((bestScored (text.map pyLower)).2
              < intentThreshold (bestScored (text.map pyLower)).1 →
            classify_with_context text
              = ("unknown".data,
                  min ((bestScored (text.map pyLower)).2
                    / (intentThreshold (bestScored (text.map pyLower)).1 * 2)) 1))))
    ∧ reSearch "оплат[иь]т?ь?".data suppressionText = true
    ∧ intent_score paymentIntent suppressionText = 0
    ∧ classify_with_context suppressionText = ("unknown".data, 13/40) := by
  refine ⟨?_, by decide, suppression_payment_score, suppression_classify⟩
  intro text hbtn hmenu
  simp only [classify_with_context, hbtn, hmenu, Bool.or_self,
    Bool.false_eq_true, if_false, scores_list_ne_nil]
  by_cases hth : intentThreshold (bestScored (List.map pyLower text)).1
      ≤ (bestScored (List.map pyLower text)).2
  · rw [if_pos hth]
    exact ⟨⟨fun _ => hth, fun _ => rfl⟩, fun hlt => absurd hth (not_le.mpr hlt)⟩
  · rw [if_neg hth]
    refine ⟨⟨fun heq => ?_, fun hge => absurd hge hth⟩, fun _ => ?_⟩
    · exact absurd heq.symm (bestScored_name_ne_unknown (List.map pyLower text))
    · rw [if_pos (bestScored_threshold_pos (List.map pyLower text))]

/-- Witness for the amended C3 theorem at the suppression text. -/
theorem classify_with_context_argmax_amended_witness :
    (classify_with_context suppressionText).1
        = (bestScored (suppressionText.map pyLower)).1
      ↔ intentThreshold (bestScored (suppressionText.map pyLower)).1
          ≤ (bestScored (suppressionText.map pyLower)).2 :=
  (classify_with_context_argmax_amended.1 suppressionText (by decide)
    (by decide)).1

/-- Concrete text on which the `button:` bypass beats the scored argmax. -/
def buttonBypassText : Str :=
  "button:оплатить поставщику за услугу".data

theorem bypass_payment_score :
    intent_score paymentIntent buttonBypassText = 16/3 := by
  rw [intent_score_eval paymentIntent buttonBypassText 1 2 0 (by decide)
    (by decide) (by decide)]
  norm_num [paymentIntent]

theorem bypass_best :
    bestScored buttonBypassText = ("payment_to_supplier".data, 16/3) := by
  have h0 : bestScored buttonBypassText
      = bestOf ("payment_to_supplier".data, intent_score paymentIntent buttonBypassText)
        [("goods_receipt".data, intent_score goodsReceiptIntent buttonBypassText),
         ("invoice_creation".data, intent_score invoiceCreationIntent buttonBypassText),
         ("bank_statement".data, intent_score bankStatementIntent buttonBypassText),
         ("cash_operations".data, intent_score cashOperationsIntent buttonBypassText),
         ("report_generation".data, intent_score reportGenerationIntent buttonBypassText),
         ("debt_analysis".data, intent_score debtAnalysisIntent buttonBypassText),
         ("advance_report".data, intent_score advanceReportIntent buttonBypassText),
         ("goods_balance".data, intent_score goodsBalanceIntent buttonBypassText),
         ("sales_period".data, intent_score salesPeriodIntent buttonBypassText)] := rfl
  rw [h0, bypass_payment_score,
    intent_score_no_positive goodsReceiptIntent buttonBypassText (by decide)
      (by decide) (by norm_num [goodsReceiptIntent]),
    intent_score_no_positive invoiceCreationIntent buttonBypassText (by decide)
      (by decide) (by norm_num [invoiceCreationIntent]),
    intent_score_no_positive bankStatementIntent buttonBypassText (by decide)
      (by decide) (by norm_num [bankStatementIntent]),
    intent_score_no_positive cashOperationsIntent buttonBypassText (by decide)
      (by decide) (by norm_num [cashOperationsIntent]),
    intent_score_no_positive reportGenerationIntent buttonBypassText (by decide)
      (by decide) (by norm_num [reportGenerationIntent]),
    intent_score_no_positive debtAnalysisIntent buttonBypassText (by decide)
      (by decide) (by norm_num [debtAnalysisIntent]),
    intent_score_no_positive advanceReportIntent buttonBypassText (by decide)
      (by decide) (by norm_num [advanceReportIntent]),
    intent_score_no_positive goodsBalanceIntent buttonBypassText (by decide)
      (by decide) (by norm_num [goodsBalanceIntent]),
    intent_score_no_positive salesPeriodIntent buttonBypassText (by decide)
      (by decide) (by norm_num [salesPeriodIntent])]
  unfold bestOf
  simp only [List.foldl_cons, List.foldl_nil]
  norm_num

/-- C3, counterexample: on `"button:оплатить поставщику за услугу"` the
best-scoring intent is `payment_to_supplier` with score `16/3` above its
threshold `1.5`, yet `classify_with_context` returns `('button_click', 1.0)`
via the prefix bypass, so the claimed argmax behaviour does not hold for every
input text. -/
theorem classify_with_context_argmax_cex :
    classify_with_context buttonBypassText = ("button_click".data, 1)
    ∧ bestScored (buttonBypassText.map pyLower)
        = ("payment_to_supplier".data, 16/3)
    ∧ intentThreshold "payment_to_supplier".data ≤ 16/3
    ∧ ¬(("button_click".data : Str) = "payment_to_supplier".data) := by
  refine ⟨?_, ?_, ?_, by decide⟩
  · have hbtn : strContains "button:".data (buttonBypassText.map pyLower)
        = true := by decide
    simp [classify_with_context, hbtn]
  · rw [show buttonBypassText.map pyLower = buttonBypassText from by decide]
    exact bypass_best
  · rw [show intentThreshold "payment_to_supplier".data = paymentIntent.threshold
      from rfl]
    norm_num [paymentIntent]

/-! ### `NLPEngine`: button clicks, clarification and `process_query` -/

/-- Index of the first occurrence of `needle` in `hay` (Python `str.find`,
used only after a containment check). -/
def strFind : Str → Str → ℕ
  | _, [] => 0
  | needle, d :: ds =>
    if startsWithChars needle (d :: ds) then 0 else strFind needle ds + 1

/-- The paraphrase pattern groups of `IntentClassifier.is_button_click`
(nlp_engine.py, lines 567-572). -/
def button_patterns_table : List (List Str × Str) :=
  [(["нажать кнопку".data, "нажми кнопку".data, "нажы кнопку".data,
     "нажатькнопку".data], "button".data),
   (["клик по кнопке".data, "кликнуть кнопку".data, "клик по".data,
     "кликнуть".data], "button".data),
   (["в меню".data, "меню".data, "в разедел".data, "разедел".data],
    "menu".data),
   (["раздел".data, "раздил".data, "радел".data], "menu".data)]

/-- Scan one pattern group: on a hit, the payload is the stripped text after
the first occurrence; an empty payload falls through to the next pattern. -/
def findInPatternList (text_lower : Str) (st : Str) : List Str → Option (Str × Str)
  | [] => none
  | p :: ps =>
    if strContains p text_lower then
      let button_text := pyStrip (text_lower.drop (strFind p text_lower + p.length))
      if button_text.isEmpty then findInPatternList text_lower st ps
      else some (st, button_text)
    else findInPatternList text_lower st ps

def findButtonPattern (text_lower : Str) : List (List Str × Str) → Option (Str × Str)
  | [] => none
  | (ps, st) :: rest =>
    match findInPatternList text_lower st ps with
    | some r => some r
    | none => findButtonPattern text_lower rest

/-- `IntentClassifier.is_button_click` (nlp_engine.py, lines 555-583). -/
def is_button_click (text : Str) : Bool × Option Str × Option Str :=
  let text_lower := text.map pyLower
  if startsWithChars "button:".data text_lower then
    (true, some "button".data, some (pyStrip (text_lower.drop 7)))
  else if startsWithChars "menu:".data text_lower then
    (true, some "menu".data, some (pyStrip (text_lower.drop 5)))
  else
    match findButtonPattern text_lower button_patterns_table with
    | some (st, payload) => (true, some st, some payload)
    | none => (false, none, none)

example : is_button_click "button:Накладные".data
    = (true, some "button".data, some "накладные".data) := by decide

/-- Step three of `ButtonHandler.handle_button_click`: search without a
source filter at threshold `0.35`. -/
def button_any_match (s : KBSearcher) (nb : Str) : Except Unit (Option Entry) :=
  match find_best_match s nb none 0.35 with
  | .error u => .error u
  | .ok (any_match, _) => .ok any_match

/-- `ButtonHandler.handle_button_click` (nlp_engine.py, lines 613-655): exact
match within the source kind, then fuzzy at threshold `0.3` within the source
kind, then fuzzy across all sources at `0.35`. -/
def handle_button_click (s : KBSearcher) (source_type button_text : Str) :
    Except Unit (Option Entry) :=
  let normalized_button := normalize_text button_text
  match find_by_exact_question s normalized_button (some source_type) with
  | some e => .ok (some e)
  | none =>
    match find_best_match s normalized_button (some source_type) 0.3 with
    | .error u => .error u
    | .ok (fuzzy, conf) =>
      match fuzzy with
      | some e =>
        if 0.3 ≤ conf then .ok (some e) else button_any_match s normalized_button
      | none => button_any_match s normalized_button

/-- Association lookup keyed by strings (Python dict access). -/
def sLookup {β : Type} (ps : List (Str × β)) (k : Str) : Option β :=
  match ps with
  | [] => none
  | (key, v) :: rest => if key = k then some v else sLookup rest k

/-- `IntentClassifier.get_intent_description` (nlp_engine.py, lines 585-604). -/
def get_intent_description (intent_name : Str) : Str :=
  (match
  sLookup
  [("payment_to_supplier".data, "Оплата поставщику".data),
   ("goods_receipt".data, "Оприходование товара от поставщика".data),
   ("invoice_creation".data, "Создание накладной или счета-фактуры".data),
   ("bank_statement".data, "Работа с банковскими выписками".data),
   ("cash_operations".data, "Кассовые операции".data),
   ("report_generation".data, "Формирование отчетов".data),
   ("debt_analysis".data, "Анализ задолженности".data),
   ("advance_report".data, "Авансовые отчеты".data),
   ("goods_balance".data, "Остатки товаров".data),
   ("sales_period".data, "Продажи по периодам".data),
   ("greeting".data, "Приветствие".data),
   ("farewell".data, "Прощание".data),
   ("help_request".data, "Запрос помощи".data),
   ("button_click".data, "Нажатие кнопки".data),
   ("unknown".data, "Неизвестный запрос".data)]
  intent_name
  with
  | some d => d
  | none => "Неизвестный интент".data)

/-- One row of the match-analysis dict of `NLPEngine.process_message`.  The
button path omits the intent fields, hence the `Option`s. -/
structure Analysis where
  original_message : Str
  normalized_message : Str
  main_intent : Option Str
  intent_confidence : Option ℚ
  intent_description : Option Str
  keywords : List Str
  kb_answer : Option Str
  kb_item : Option Entry
  kb_confidence : ℚ
  has_kb_answer : Bool
  is_button_click : Bool
  is_fuzzy_match : Bool
  source_type : Option Str

/-- The plain-text branch of `NLPEngine.process_message`
(nlp_engine.py, lines 697-736). -/
def process_message_text (s : KBSearcher) (user_message : Str) :
    Except Unit Analysis :=
  let normalized := normalize_text user_message
  let mi := classify_with_context normalized
  let keywords := extract_keywords normalized
  match find_best_match s user_message none 0.35 with
  | .error u => .error u
  | .ok (kb_item, kb_confidence) =>
    let is_fuzzy_match :=
      match kb_item with
      | some item =>
        if kb_confidence < 0.7 then decide (item.question.map pyLower ≠ normalized)
        else false
      | none => false
    .ok { original_message := user_message, normalized_message := normalized,
          main_intent := some mi.1, intent_confidence := some mi.2,
          intent_description := some (get_intent_description mi.1),
          keywords := keywords, kb_answer := kb_item.map Entry.answer,
          kb_item := kb_item, kb_confidence := kb_confidence,
          has_kb_answer := kb_item.isSome, is_button_click := false,
          is_fuzzy_match := is_fuzzy_match, source_type := none }

/-- `NLPEngine.process_message` (nlp_engine.py, lines 666-736): recognised
button clicks with a non-empty payload that resolve to an entry are answered
at confidence `1.0`; everything else falls through to the text branch. -/
def process_message (s : KBSearcher) (user_message : Str) :
    Except Unit Analysis :=
  match is_button_click user_message with
  | (true, some st, some bt) =>
    if bt.isEmpty then process_message_text s user_message
    else
      match handle_button_click s st bt with
      | .error u => .error u
      | .ok (some kb_item) =>
        .ok { original_message := user_message, normalized_message := bt,
              main_intent := none, intent_confidence := none,
              intent_description := none, keywords := [],
              kb_answer := some kb_item.answer, kb_item := some kb_item,
              kb_confidence := 1, has_kb_answer := true,
              is_button_click := true, is_fuzzy_match := false,
              source_type := some st }
      | .ok none => process_message_text s user_message
  | _ => process_message_text s user_message

/-- The tag-weight table of `NLPEngine._get_questions_by_categories`
(nlp_engine.py, lines 822-825). -/
def tag_weights : List (Str × ℚ) :=
  [("оплата".data, 2.0), ("поставщик".data, 2.0), ("приемка".data, 2.0),
   ("товар".data, 1.5), ("накладная".data, 2.0), ("отчет".data, 1.5),
   ("платеж".data, 2.0), ("документ".data, 1.2)]

/-- One candidate of the clarification list (the per-item dict built at
nlp_engine.py, lines 859-866). -/
structure CatItem where
  item : Entry
  relevance : ℚ
  question : Str
  tags : List Str
  matched_tags : List Str
  source : Str

/-- Weighted tag relevance of one entry against the search categories
(nlp_engine.py, lines 837-853): full weight on an exact tag, `0.7×` a reduced
default on the first partial (substring) tag match per category. -/
def category_relevance (item_tags : List Str) (categories : List Str) :
    ℚ × List Str :=
  categories.foldl (fun acc category =>
    if category ∈ item_tags then
      (acc.1 + ((sLookup tag_weights category).getD 1.0), acc.2 ++ [category])
    else
      match item_tags.find? (fun item_tag =>
          strContains category item_tag || strContains item_tag category) with
      | some item_tag =>
        (acc.1 + ((sLookup tag_weights category).getD 0.8) * 0.7,
         acc.2 ++ [category ++ "≈".data ++ item_tag])
      | none => acc) (0, [])

/-- Sort key order of the final `categorized_items.sort` (nlp_engine.py,
lines 868-872): relevance first, then source factor, descending. -/
def catKeyGe (a b : ℚ × ℚ) : Bool :=
  decide (b.1 < a.1) || (decide (a.1 = b.1) && decide (b.2 ≤ a.2))

/-- Stable insertion preserving original order among equal keys (Python
`list.sort` is stable). -/
def insertDesc (key : CatItem → ℚ × ℚ) (x : CatItem) :
    List CatItem → List CatItem
  | [] => [x]
  | y :: ys => if catKeyGe (key x) (key y) then x :: y :: ys
    else y :: insertDesc key x ys

def sortDesc (key : CatItem → ℚ × ℚ) (l : List CatItem) : List CatItem :=
  l.foldr (insertDesc key) []

def catKey (c : CatItem) : ℚ × ℚ :=
  (c.relevance, if c.source = "manual".data then 1 else 0.5)

/-- `NLPEngine._get_questions_by_categories` (nlp_engine.py, lines 808-874).
The source turns `matched_tags` into `list(set(...))[:3]`, whose order is
CPython-hash dependent; the embedding keeps first occurrences. -/
def get_questions_by_categories (kb : List Entry) (categories : List Str)
    (exclude_id : Option Int) (limit : ℕ) (min_relevance : ℚ) : List CatItem :=
  if categories.isEmpty then []
  else
    let categorized := kb.filterMap (fun item =>
      if (match exclude_id with
          | some eid => decide (item.id = some eid)
          | none => false) then none
      else if item.tags.isEmpty then none
      else
        let wr := category_relevance item.tags categories
        if min_relevance ≤ wr.1 then
          some { item := item, relevance := wr.1 / (categories.length : ℚ),
                 question := item.question, tags := item.tags,
                 matched_tags := (dedupFirst wr.2).take 3,
                 source := item.sourceVal }
        else none)
    (sortDesc catKey categorized).take limit

/-- Digits of a natural number. -/
def natStr (n : ℕ) : Str :=
  Nat.toDigits 10 n

/-- Python `int()` truncation of a rational toward zero. -/
def pyIntTrunc (q : ℚ) : ℤ :=
  if q < 0 then -⌊-q⌋ else ⌊q⌋

def intStr (i : ℤ) : Str :=
  if i < 0 then '-' :: natStr (-i).toNat else natStr i.toNat

/-- Percentage display `int(x * 100)`. -/
def percentStr (q : ℚ) : Str :=
  intStr (pyIntTrunc (q * 100))

/-- Worker of `NLPEngine._format_tags_preview`: keep the part of each tag
before a `≈`/`~` marker, first occurrences only, longer than two characters. -/
def ftpAux (seen : List Str) : List Str → List Str
  | [] => []
  | tag :: rest =>
    let clean_tag := tag.takeWhile (fun c => decide (c ≠ '≈') && decide (c ≠ '~'))
    if decide (clean_tag ∉ seen) && decide (2 < clean_tag.length) then
      clean_tag :: ftpAux (clean_tag :: seen) rest
    else ftpAux seen rest

def joinWith (sep : Str) : List Str → Str
  | [] => []
  | [x] => x
  | x :: xs => x ++ sep ++ joinWith sep xs

/-- `NLPEngine._format_tags_preview` (nlp_engine.py, lines 1008-1023). -/
def format_tags_preview (tags : List Str) : Str :=
  joinWith ", ".data ((ftpAux [] tags).take 3)

def enumFrom {α : Type} (n : ℕ) : List α → List (ℕ × α)
  | [] => []
  | x :: xs => (n, x) :: enumFrom (n + 1) xs

/-- One numbered manual-instruction line of the clarification message
(nlp_engine.py, lines 960-970). -/
def clarLineManual (n : ℕ) (alt : CatItem) : Str :=
  let p := percentStr alt.relevance
  let tp := format_tags_preview alt.matched_tags
  if tp.isEmpty then
    natStr n ++ ". ".data ++ alt.question ++ " *(релевантность ".data ++ p
      ++ "%)*".data
  else
    natStr n ++ ". ".data ++ alt.question ++ " *(".data ++ tp
      ++ ", релевантность ".data ++ p ++ "%)*".data

/-- One numbered quick-access line (nlp_engine.py, lines 973-981). -/
def clarLineButton (n : ℕ) (alt : CatItem) : Str :=
  let bt := alt.item.button_text.getD "📌".data
  natStr n ++ ". ".data ++ bt ++ " ".data ++ alt.question

/-- `NLPEngine._create_interactive_clarification` (nlp_engine.py, lines
927-1007).  The `category_info` local of the source is computed but never
interpolated into the final message, so it is not modelled; the internal
`option_map` is likewise local to the message text. -/
def create_interactive_clarification (original_question : Str)
    (alternative_questions : List CatItem) (user_query : Str) : Str :=
  if alternative_questions.isEmpty then
    "🤔 **Мне нужно уточнение.**\n\nПо вашему запросу **«".data
      ++ user_query.take 50
      ++ "...»** я нашел:\n**«".data ++ original_question
      ++ "»**\n\n*Если это не то, что вам нужно, попробуйте:*\n• Использовать другие ключевые слова\n• Обратиться к разделам меню\n• Сформулировать вопрос более конкретно".data
  else
    let manual_items := alternative_questions.filter
      (fun a => decide (a.source = "manual".data))
    let button_items := alternative_questions.filter
      (fun a => decide (a.source = "button".data) || decide (a.source = "menu".data))
    let manual_lines := (enumFrom 1 (manual_items.take 2)).map
      (fun p => clarLineManual p.1 p.2)
    let counter_after_manual := 1 + (manual_items.take 2).length
    let button_lines := (enumFrom counter_after_manual (button_items.take 2)).map
      (fun p => clarLineButton p.1 p.2)
    let counter_final := counter_after_manual + (button_items.take 2).length
    let alternatives_text :=
      (if manual_items.isEmpty then []
       else "**📖 Подробные инструкции:**".data :: manual_lines)
      ++ (if button_items.isEmpty then []
          else "\n**🔘 Быстрый доступ:**".data :: button_lines)
    "🔍 **Уточните, пожалуйста**\n\nПо вашему запросу я нашел несколько вариантов:\n\n".data
      ++ joinWith "\n".data alternatives_text
      ++ "\n\n**Какой вариант вам нужен?**\n• Ответьте номером (1-".data
      ++ natStr (counter_final - 1)
      ++ ") для быстрого выбора\n• Или переформулируйте запрос более конкретно\n• Используйте кнопки меню для точного выбора\n\n*Текущий запрос: «".data
      ++ user_query ++ "»*".data

/-- `NLPEngine.get_clarification_response` (nlp_engine.py, lines 772-807).
With no matched entry the source returns a bare apology string where its
callers expect a `(message, options)` pair (`inl`); otherwise it returns the
rendered prompt and the full `{number: candidate}` option dict (`inr`). -/
def get_clarification_response (s : KBSearcher) (analysis : Analysis) :
    Sum Str (Str × List (ℕ × CatItem)) :=
  match analysis.kb_item with
  | none => .inl "Извините, произошла ошибка при обработке вашего запроса.".data
  | some kb_item =>
    let search_categories := kb_item.tags ++
      (match analysis.main_intent with
       | some mi => if decide (mi ≠ "unknown".data) then [mi] else []
       | none => [])
    let category_questions :=
      get_questions_by_categories s.kb_data search_categories kb_item.id 4 0.2
    let message := create_interactive_clarification kb_item.question
      category_questions []
    .inr (message, enumFrom 1 category_questions)

/-- `NLPEngine._format_standard_response` (nlp_engine.py, lines 1042-1061);
only reached when the analysis carries an entry. -/
def format_standard_response (analysis : Analysis) : Str :=
  match analysis.kb_item with
  | none => []
  | some kb_item =>
    let answer := kb_item.answer
    let p := percentStr analysis.kb_confidence
    let button_header :=
      if analysis.is_button_click then
        let source := kb_item.source.getD []
        let bt := kb_item.button_text.getD []
        if !bt.isEmpty && (decide (source = "menu".data) || decide (source = "button".data)) then
          some ("🔘 **".data ++ bt ++ "**\n\n".data ++ answer)
        else none
      else none
    match button_header with
    | some r => r
    | none =>
      if analysis.is_fuzzy_match then
        "✅ ".data ++ answer ++ "\n\n<i>(Возможно, вы имели в виду: '".data
          ++ (analysis.kb_item.map Entry.question).getD []
          ++ "'. Найдено с уверенностью ".data ++ p ++ "%)</i>".data
      else
        "✅ ".data ++ answer ++ "\n\n<i>(Найдено в базе знаний с уверенностью ".data
          ++ p ++ "%)</i>".data

/-- Modelled from the spec: `NLPEngine._get_search_suggestions` is called at
nlp_engine.py line 763 but its definition is missing from the sources; per
the specification the zero-match condition "is not an error; a designed
output path with generic suggestions". -/
def get_search_suggestions (user_message : Str) : Str :=
  "🤔 По запросу «".data ++ user_message
    ++ "» точного ответа не найдено.\nПопробуйте:\n• Переформулировать вопрос\n• Использовать кнопки меню\n• Задать более конкретный вопрос".data

/-- The structured result of `NLPEngine.process_query`
(nlp_engine.py, lines 741-747). -/
structure QueryResult where
  answer : Str
  needs_clarification : Bool
  options : List (ℕ × CatItem)
  original_question : Str
  confidence : ℚ

/-- `NLPEngine.process_query` (nlp_engine.py, lines 737-765).  Line 754 of
the source over-indents the `if confidence < 0.65:` test; the embedding reads
it at the evident intended depth (clarify below `0.65`, standard response at
or above).  The bare-string return of `get_clarification_response` would fail
the caller's tuple unpacking, hence `Except.error`; that path needs
`has_kb_answer` with no entry and is unreachable. -/
def process_query (s : KBSearcher) (user_message : Str) :
    Except Unit QueryResult :=
  match process_message s user_message with
  | .error u => .error u
  | .ok analysis =>
    if analysis.has_kb_answer then
      if analysis.kb_confidence < 0.65 then
        match get_clarification_response s analysis with
        | .inl _ => .error ()
        | .inr co =>
          .ok { answer := co.1, needs_clarification := true, options := co.2,
                original_question := [], confidence := analysis.kb_confidence }
      else
        .ok { answer := format_standard_response analysis,
              needs_clarification := false, options := [],
              original_question := [], confidence := analysis.kb_confidence }
    else
      .ok { answer := get_search_suggestions user_message,
            needs_clarification := false, options := [],
            original_question := [], confidence := analysis.kb_confidence }

/-- `NLPEngine.get_final_answer` (nlp_engine.py, lines 767-770). -/
def get_final_answer (s : KBSearcher) (user_message : Str) : Except Unit Str :=
  match process_query s user_message with
  | .error u => .error u
  | .ok r => .ok r.answer

/-! ### `BotProcessor`: per-user sessions and message handling -/

/-- Association lookup keyed by numbers (the `{number: option}` dict). -/
def nLookup {β : Type} (ps : List (ℕ × β)) (k : ℕ) : Option β :=
  match ps with
  | [] => none
  | (key, v) :: rest => if key = k then some v else nLookup rest k

/-- One user's session state (`BotProcessor._get_user_session`,
bot_processor.py, lines 247-258). -/
structure Session where
  message_count : ℕ := 0
  waiting_for_clarification : Bool := false
  clarification_options : List (ℕ × CatItem) := []
  original_query : Str := []

/-- `BotProcessor._handle_option_selection` (bot_processor.py, lines
320-351): a valid number answers from the stored entry and clears the
session; an out-of-range number sends a corrective message and leaves the
session untouched. -/
def handle_option_selection (session : Session) (option_number : ℕ) :
    Session × Str :=
  let options := session.clarification_options
  match nLookup options option_number with
  | some selected =>
    let item := selected.item
    let answer := item.answer
    let source := item.source.getD []
    let response :=
      if decide (source = "button".data) || decide (source = "menu".data) then
        "🔘 **".data ++ item.button_text.getD [] ++ "**\n\n".data ++ answer
      else answer
    ({ session with
        waiting_for_clarification := false
        clarification_options := [] }, response)
  | none =>
    (session,
     "❌ <b>Неверный номер варианта:</b> ".data ++ natStr option_number
       ++ "\n\nПожалуйста, выберите номер из предложенного списка (1-".data
       ++ natStr options.length ++ ").".data)

/-- What one `handle_message` call sends back, distinguished by source path. -/
inductive Outcome where
  | selection (response : Str)
  | clarification (payload : Sum Str (Str × List (ℕ × CatItem)))
  | standard (answer : Str)
  | engineError

/-- Python `str.isdigit()` for ASCII digits. -/
def pyIsDigit (msg : Str) : Bool :=
  !msg.isEmpty && msg.all (fun c => decide ('0' ≤ c) && decide (c ≤ '9'))

/-- Python `int(msg)` on a digit string. -/
def pyToNat (msg : Str) : ℕ :=
  msg.foldl (fun acc c => acc * 10 + (c.toNat - '0'.toNat)) 0

/-- The query fallthrough of `BotProcessor.handle_message` (bot_processor.py,
lines 467-485).  `hasattr(self.nlp_engine, '_current_options')` is always
false — `NLPEngine` never defines that attribute — so the clarification
branch stores nothing in the session and sends the raw
`get_clarification_response` value (a `(message, options)` tuple). -/
def handle_message_query (s : KBSearcher) (session : Session)
    (user_message : Str) : Session × Outcome :=
  match process_message s user_message with
  | .error _ => (session, .engineError)
  | .ok analysis =>
    if analysis.has_kb_answer && decide (analysis.kb_confidence < 0.65) then
      (session, .clarification (get_clarification_response s analysis))
    else
      match get_final_answer s user_message with
      | .error _ => (session, .engineError)
      | .ok ans => (session, .standard ans)

/-- `BotProcessor.handle_message` (bot_processor.py, lines 448-485): a live
clarification session routes digit replies to the selection handler; any
other reply clears the stale session and is treated as a brand-new query. -/
def handle_message (s : KBSearcher) (session : Session) (user_message : Str) :
    Session × Outcome :=
  let session1 := { session with message_count := session.message_count + 1 }
  if session1.waiting_for_clarification then
    if pyIsDigit user_message then
      let r := handle_option_selection session1 (pyToNat user_message)
      (r.1, .selection r.2)
    else
      handle_message_query s
        { session1 with
            waiting_for_clarification := false
            clarification_options := [] } user_message
  else
    handle_message_query s session1 user_message

theorem handle_message_query_session (s : KBSearcher) (session : Session)
    (m : Str) : (handle_message_query s session m).1 = session := by
  unfold handle_message_query
  cases process_message s m with
  | error u => rfl
  | ok a =>
    simp only []
    split
    · rfl
    · cases get_final_answer s m with
      | error u => rfl
      | ok ans => rfl

theorem handle_message_query_not_selection (s : KBSearcher) (session : Session)
    (m : Str) (t : Str) :
    (handle_message_query s session m).2 ≠ Outcome.selection t := by
  unfold handle_message_query
  cases process_message s m with
  | error u => simp
  | ok a =>
    simp only []
    split
    · simp
    · cases get_final_answer s m with
      | error u => simp
      | ok ans => simp

/-- Concrete clarification candidate and live session used for the session
claims. -/
def exCatItem : CatItem :=
  { item := exEntry, relevance := 1, question := exEntry.question,
    tags := [], matched_tags := [], source := "manual".data }

def exSession : Session :=
  { message_count := 0, waiting_for_clarification := true,
    clarification_options := [(1, exCatItem)], original_query := [] }

/-- C7, counterexample: selecting the out-of-range option `5` against a live
session with the single option `1` sends the corrective message but leaves
the session live — `waiting_for_clarification` stays `true` and the option
map stays non-empty, so the session is not cleared. -/
theorem option_selection_invalid_cex :
    (handle_option_selection exSession 5).1.waiting_for_clarification = true
    ∧ (handle_option_selection exSession 5).1.clarification_options ≠ []
    ∧ (handle_option_selection exSession 5).2
        = "❌ <b>Неверный номер варианта:</b> 5\n\nПожалуйста, выберите номер из предложенного списка (1-1).".data := by
  refine ⟨rfl, ?_, rfl⟩
  rw [show (handle_option_selection exSession 5).1.clarification_options
      = [(1, exCatItem)] from rfl]
  exact fun h => List.noConfusion h

/-- C7 (amended): for every session and option number outside the stored key
range, the selection handler produces the user-visible corrective message
naming the valid range and leaves the session unchanged — still live, so the
user may retry — rather than cleared. -/
theorem option_selection_invalid_amended (session : Session) (n : ℕ)
    (h : nLookup session.clarification_options n = none) :
    handle_option_selection session n
      = (session,
         "❌ <b>Неверный номер варианта:</b> ".data ++ natStr n
           ++ "\n\nПожалуйста, выберите номер из предложенного списка (1-".data
           ++ natStr session.clarification_options.length ++ ").".data) := by
  simp only [handle_option_selection, h]

/-- Witness for the amended C7 theorem at the concrete session. -/
theorem option_selection_invalid_amended_witness :
    handle_option_selection exSession 5
      = (exSession,
         "❌ <b>Неверный номер варианта:</b> ".data ++ natStr 5
           ++ "\n\nПожалуйста, выберите номер из предложенного списка (1-".data
           ++ natStr exSession.clarification_options.length ++ ").".data) :=
  option_selection_invalid_amended exSession 5 rfl

theorem handle_message_not_waiting (s : KBSearcher) (session : Session)
    (m : Str) (h : session.waiting_for_clarification = false) :
    handle_message s session m
      = handle_message_query s
          { session with message_count := session.message_count + 1 } m := by
  unfold handle_message
  simp only [h, Bool.false_eq_true, if_false]

/-- C8 (confirmed): a successful selection returns the stored entry's answer
and clears the session, and a second attempt with the same digit reply is no
longer routed through the selection handler: it is processed as a brand-new
query — the code's realisation of the "no pending session" outcome — and in
particular never yields the previously stored answer as a selection. -/
theorem handle_message_one_shot (s : KBSearcher) (session : Session) (n : ℕ)
    (it : CatItem) (msg : Str)
    (hw : session.waiting_for_clarification = true)
    (hd : pyIsDigit msg = true) (hn : pyToNat msg = n)
    (hit : nLookup session.clarification_options n = some it) :
    ∃ s1 resp,
      handle_message s session msg = (s1, Outcome.selection resp)
      ∧ (resp = it.item.answer
         ∨ resp = "🔘 **".data ++ it.item.button_text.getD [] ++ "**\n\n".data
             ++ it.item.answer)
      ∧ s1.waiting_for_clarification = false
      ∧ s1.clarification_options = []
      ∧ (∀ t, (handle_message s s1 msg).2 ≠ Outcome.selection t)
      ∧ (handle_message s s1 msg).2
          = (handle_message_query s
              { s1 with message_count := s1.message_count + 1 } msg).2 := by
  have hsel : handle_option_selection
      { session with message_count := session.message_count + 1 } (pyToNat msg)
      = ({ session with
            message_count := session.message_count + 1
            waiting_for_clarification := false
            clarification_options := [] },
         if decide (it.item.source.getD [] = "button".data)
             || decide (it.item.source.getD [] = "menu".data) then
           "🔘 **".data ++ it.item.button_text.getD [] ++ "**\n\n".data
             ++ it.item.answer
         else it.item.answer) := by
    rw [hn]
    simp only [handle_option_selection, hit]
  rw [hw] at hsel
  refine ⟨{ session with
      message_count := session.message_count + 1
      waiting_for_clarification := false
      clarification_options := [] },
    if decide (it.item.source.getD [] = "button".data)
        || decide (it.item.source.getD [] = "menu".data) then
      "🔘 **".data ++ it.item.button_text.getD [] ++ "**\n\n".data
        ++ it.item.answer
    else it.item.answer,
    ?_, ?_, rfl, rfl, ?_, ?_⟩
  · unfold handle_message
    simp only [hw, if_true, hd, hsel]
  · by_cases hsrc : (decide (it.item.source.getD [] = "button".data)
        || decide (it.item.source.getD [] = "menu".data)) = true
    · rw [if_pos hsrc]
      exact Or.inr rfl
    · rw [if_neg hsrc]
      exact Or.inl rfl
  · intro t
    rw [handle_message_not_waiting s _ msg rfl]
    exact handle_message_query_not_selection s _ msg t
  · rw [handle_message_not_waiting s _ msg rfl]

/-- Witness for C8 at the concrete live session with stored option `1`. -/
theorem handle_message_one_shot_witness :
    ∃ s1 resp,
      handle_message exSearcher exSession "1".data = (s1, Outcome.selection resp)
      ∧ (resp = exCatItem.item.answer
         ∨ resp = "🔘 **".data ++ exCatItem.item.button_text.getD []
             ++ "**\n\n".data ++ exCatItem.item.answer)
      ∧ s1.waiting_for_clarification = false
      ∧ s1.clarification_options = []
      ∧ (∀ t, (handle_message exSearcher s1 "1".data).2 ≠ Outcome.selection t)
      ∧ (handle_message exSearcher s1 "1".data).2
          = (handle_message_query exSearcher
              { s1 with message_count := s1.message_count + 1 } "1".data).2 :=
  handle_message_one_shot exSearcher exSession 1 exCatItem "1".data rfl
    (by decide) (by decide) rfl

/-! ### C2: clarification mutual exclusion.  C9: index freshness. -/

/-- C2 (confirmed): within one `process_query` call the two outcomes are
mutually exclusive — whenever a non-empty option map comes back the result is
flagged as a clarification and its answer is exactly the interactive
clarification prompt built for the analysed entry, never a direct answer;
and whenever a knowledge-base answer is present with confidence at or above
the resolution threshold `0.65`, the result carries no options and no
clarification flag.  At the bot layer, `handle_message` never creates a live
clarification session: `waiting_for_clarification` can only persist from a
session that was already live before the call. -/
theorem process_query_mutual_exclusion :
    (∀ (s : KBSearcher) (m : Str) (r : QueryResult),
        process_query s m = .ok r →
        ((r.options ≠ [] →
            r.needs_clarification = true
            ∧ ∃ a, process_message s m = .ok a
                ∧ get_clarification_response s a = .inr (r.answer, r.options))
         ∧ ∀ a, process_message s m = .ok a → a.has_kb_answer = true →
             (0.65 : ℚ) ≤ a.kb_confidence →
             r.options = [] ∧ r.needs_clarification = false))
    ∧ (∀ (s : KBSearcher) (session : Session) (m : Str),
        (handle_message s session m).1.waiting_for_clarification = true →
        session.waiting_for_clarification = true) := by
  constructor
  · intro s m r hr
    unfold process_query at hr
    cases hpm : process_message s m with
    | error u =>
      simp only [hpm] at hr
      exact Except.noConfusion hr
    | ok a =>
      simp only [hpm] at hr
      by_cases hhas : a.has_kb_answer = true
      · rw [if_pos hhas] at hr
        by_cases hc : a.kb_confidence < 0.65
        · rw [if_pos hc] at hr
          cases hg : get_clarification_response s a with
          | inl e =>
            simp only [hg] at hr
            exact Except.noConfusion hr
          | inr co =>
            simp only [hg] at hr
            rw [Except.ok.injEq] at hr
            subst hr
            constructor
            · intro hopt
              exact ⟨rfl, a, rfl, hg⟩
            · intro a1 ha1 hhas1 hconf1
              rw [Except.ok.injEq] at ha1
              subst ha1
              exact absurd hconf1 (not_le.mpr hc)
        · rw [if_neg hc, Except.ok.injEq] at hr
          subst hr
          exact ⟨fun hopt => absurd rfl hopt, fun _ _ _ _ => ⟨rfl, rfl⟩⟩
      · rw [if_neg hhas, Except.ok.injEq] at hr
        subst hr
        exact ⟨fun hopt => absurd rfl hopt, fun _ _ _ _ => ⟨rfl, rfl⟩⟩
  · intro s session m h
    by_cases hw : session.waiting_for_clarification = true
    · exact hw
    · have hw0 : session.waiting_for_clarification = false := by
        revert hw
        cases session.waiting_for_clarification <;> simp
      rw [handle_message_not_waiting s session m hw0,
        handle_message_query_session] at h
      exact h

/-- Witness for C2 at the concrete live session: an invalid digit reply
leaves the session live, and the bot-layer half of the theorem recovers the
session's prior liveness from that outcome. -/
theorem process_query_mutual_exclusion_witness :
    exSession.waiting_for_clarification = true :=
  process_query_mutual_exclusion.2 exSearcher exSession "5".data rfl

/-- Modelled from the spec: the administrative append (`nlp.add_example`,
called from `learn` at bot.py line 57) has no definition in the sources; per
the specification `addKnowledgeEntry(question, answer, ...)` appends the
entry and triggers reindexing, which in this embedding is rebuilding the
keyword index from the extended collection. -/
def add_example (s : KBSearcher) (q a : Str) : KBSearcher :=
  mkSearcher (s.kb_data ++ [{ question := q, answer := a,
                              source := some "manual".data }])

theorem find_some_of_append {p : Entry → Bool} (l1 l2 : List Entry)
    (h : ∃ x ∈ l2, p x = true) :
    ∃ e, (l1 ++ l2).find? p = some e ∧ p e = true := by
  have hs : ((l1 ++ l2).find? p).isSome := by
    rw [List.find?_isSome]
    obtain ⟨x, hx, hp⟩ := h
    exact ⟨x, List.mem_append_right l1 hx, hp⟩
  obtain ⟨e, he⟩ := Option.isSome_iff_exists.mp hs
  exact ⟨e, he, List.find?_some he⟩

/-- C9 (confirmed over the spec-modelled append): appending a question/answer
pair rebuilds the index from the extended collection, and the very next
exact-question lookup of the same question succeeds, returning an entry whose
normalised question coincides with the appended question's. -/
theorem add_example_exact_findable (s : KBSearcher) (q a : Str) :
    (add_example s q a).question_index
        = build_index (add_example s q a).kb_data
    ∧ ∃ e, find_by_exact_question (add_example s q a) q none = some e
        ∧ normalize_text e.question = normalize_text q := by
  refine ⟨rfl, ?_⟩
  have h := find_some_of_append
    (p := fun item =>
      !(sourceMismatch none item)
        && decide (normalize_text item.question = normalize_text q))
    s.kb_data [{ question := q, answer := a, source := some "manual".data }]
    ⟨_, List.mem_singleton_self _, by simp [sourceMismatch]⟩
  obtain ⟨e, he, hp⟩ := h
  refine ⟨e, he, ?_⟩
  exact of_decide_eq_true ((Bool.and_eq_true _ _).mp hp).2
